import Mathlib

/-!
Verification of the Legal-bridge-AI core pipeline (contract parser,
compliance engine, risk scoring engine) against its specification.

The development shallowly embeds `ai_engine/parser/__init__.py`,
`ai_engine/compliance/__init__.py` and `ai_engine/risk_scoring/__init__.py`.
Text is `List Char` (Python code-point strings).  The Python `re` usage is
embedded by a small backtracking matcher (`Rx` below) whose outcome order
mirrors Python's leftmost / greedy / first-alternative semantics, and each
source regex is transliterated into an `Rx` term next to a comment holding
the original pattern.

Python's Unicode character classes (`\s`, `\w`, `str.lower`, `str.isalpha`)
are modelled on the code points that occur in the repository's pattern
tables and in Uzbek/Russian contract text (ASCII plus the Cyrillic block);
no claim below depends on characters outside that set.
-/

namespace LB

/-- Code points of a Lean string literal, in order (Python `str`). -/
def lc (s : String) : List Char := s.toList

/-- Python `\s` on the whitespace code points used by the repository
(space, tab, LF, CR, FF, VT, NBSP). -/
def isPySpace (c : Char) : Bool :=
  c = ' ' || c = '\t' || c = '\n' || c = '\x0d' || c.toNat = 12 || c.toNat = 11 ||
    c.toNat = 0xa0

/-- Python `\d` (ASCII digits; no other digit code points occur here). -/
def isPyDigit (c : Char) : Bool := '0' ≤ c && c ≤ '9'

/-- ASCII letter. -/
def isAsciiLetter (c : Char) : Bool :=
  ('A' ≤ c && c ≤ 'Z') || ('a' ≤ c && c ≤ 'z')

/-- Python `str.isalpha` on the code points in play: ASCII letters and the
Cyrillic block U+0400 - U+04FF (which contains all Russian and Uzbek
Cyrillic letters used by the sources, including Ё ё Ў ў Қ қ Ҳ ҳ Ғ ғ). -/
def pyIsAlpha (c : Char) : Bool :=
  isAsciiLetter c || (0x400 ≤ c.toNat && c.toNat ≤ 0x4FF)

/-- Python `\w` (word character): letters, digits, underscore. -/
def isWordChar (c : Char) : Bool :=
  pyIsAlpha c || isPyDigit c || c = '_'

/-- Python `str.lower` on the code points in play: ASCII A-Z, Cyrillic
А-Я (U+0410-U+042F, +0x20), Ё→ё, Ў→ў, Қ→қ, Ҳ→ҳ, Ғ→ғ; everything else is
already lowercase or caseless and maps to itself. -/
def pyLower (c : Char) : Char :=
  if 'A' ≤ c && c ≤ 'Z' then Char.ofNat (c.toNat + 32)
  else if 0x410 ≤ c.toNat && c.toNat ≤ 0x42F then Char.ofNat (c.toNat + 32)
  else if c = 'Ё' then 'ё'
  else if c = 'Ў' then 'ў'
  else if c = 'Қ' then 'қ'
  else if c = 'Ҳ' then 'ҳ'
  else if c = 'Ғ' then 'ғ'
  else c

/-- Python `str.upper` on the same code points. -/
def pyUpper (c : Char) : Char :=
  if 'a' ≤ c && c ≤ 'z' then Char.ofNat (c.toNat - 32)
  else if 0x430 ≤ c.toNat && c.toNat ≤ 0x44F then Char.ofNat (c.toNat - 32)
  else if c = 'ё' then 'Ё'
  else if c = 'ў' then 'Ў'
  else if c = 'қ' then 'Қ'
  else if c = 'ҳ' then 'Ҳ'
  else if c = 'ғ' then 'Ғ'
  else c

/-- Lowercase a text (Python `str.lower`). -/
def lowerLC (s : List Char) : List Char := s.map pyLower

/-- Uppercase a text (Python `str.upper`). -/
def upperLC (s : List Char) : List Char := s.map pyUpper

/-- `_normalize_text`'s Cyrillic counter: `'А' <= c <= 'я' or c in 'ЁёЎўҒғҚқҲҳ'`. -/
def isCyrForRatio (c : Char) : Bool :=
  (0x410 ≤ c.toNat && c.toNat ≤ 0x44F) ||
    c = 'Ё' || c = 'ё' || c = 'Ў' || c = 'ў' || c = 'Ғ' || c = 'ғ' ||
    c = 'Қ' || c = 'қ' || c = 'Ҳ' || c = 'ҳ'

/-- The parser's `latin_to_cyr` lookalike table. -/
def latinToCyr (c : Char) : Char :=
  if c = 'A' then 'А' else if c = 'a' then 'а'
  else if c = 'B' then 'В' else if c = 'b' then 'в'
  else if c = 'E' then 'Е' else if c = 'e' then 'е'
  else if c = 'K' then 'К' else if c = 'k' then 'к'
  else if c = 'M' then 'М' else if c = 'm' then 'м'
  else if c = 'H' then 'Н' else if c = 'h' then 'н'
  else if c = 'O' then 'О' else if c = 'o' then 'о'
  else if c = 'P' then 'Р' else if c = 'p' then 'р'
  else if c = 'C' then 'С' else if c = 'c' then 'с'
  else if c = 'T' then 'Т' else if c = 't' then 'т'
  else if c = 'X' then 'Х' else if c = 'x' then 'х'
  else if c = 'Y' then 'У' else if c = 'y' then 'у'
  else c

/-- Character of a text at an index, if in range. -/
def charAt (s : List Char) (i : Nat) : Option Char := (s.drop i).head?

/-- Length of the maximal run of characters satisfying `p` from the front. -/
def runLenFrom (p : Char → Bool) : List Char → Nat
  | [] => 0
  | c :: t => if p c then runLenFrom p t + 1 else 0

/-- Length of the maximal run of characters satisfying `p` at index `i`. -/
def runLen (p : Char → Bool) (s : List Char) (i : Nat) : Nat :=
  runLenFrom p (s.drop i)

/-- Case-sensitive character comparison (text char against pattern char). -/
def eqCS (d c : Char) : Bool := d == c

/-- Case-insensitive comparison, as Python `re.IGNORECASE` folds the
characters in play. -/
def eqCI (d c : Char) : Bool := pyLower d == pyLower c

/-- Match a literal character sequence at index `i`; returns the end index. -/
def matchLits (eqc : Char → Char → Bool) (s : List Char) : Nat → List Char → Option Nat
  | i, [] => some i
  | i, c :: cs =>
    match charAt s i with
    | some d => if eqc d c then matchLits eqc s (i + 1) cs else none
    | none => none

/-- Regular-expression syntax covering the constructs used by the sources.
Quantifiers over single character classes are primitive; `star` is the
general greedy `(...)*` (used only with non-nullable bodies, as Python
requires for repeated groups). -/
inductive Rx where
  | fail
  | eps
  | str (cs : List Char)
  | cls (p : Char → Bool)
  | seq (a b : Rx)
  | alt (a b : Rx)
  | opt (a : Rx)
  | starC (p : Char → Bool)
  | plusC (p : Char → Bool)
  | lazyStarC (p : Char → Bool)
  | lazyPlusC (p : Char → Bool)
  | repC (p : Char → Bool) (lo hi : Nat)
  | repAtLeastC (p : Char → Bool) (lo : Nat)
  | star (a : Rx)
  | bolOrNl
  | grp (a : Rx)

/-- Sequence of several pieces. -/
def Rx.cat (l : List Rx) : Rx := l.foldr Rx.seq Rx.eps

/-- Ordered alternation of several pieces (Python tries them left to right). -/
def Rx.altL (l : List Rx) : Rx := l.foldr Rx.alt Rx.fail

/-- Group-1 span, when the pattern has a capture group. -/
abbrev Span := Option (Nat × Nat)

/-- All ways the expression can match starting at `i`, as end positions in
Python's backtracking order (greedy quantifiers longest-first, alternatives
in source order); the head is the end Python's engine commits to.  `^` is
matched in `re.MULTILINE` mode.  `starRuns` unrolls a greedy `(...)*` with
structural fuel; only iterations that advance the position count, so
`s.length + 1` fuel is exact (every `star` body in the sources consumes at
least one character per iteration). -/
def starRuns (f : Nat → List (Nat × Span)) : Nat → Nat → List (Nat × Span)
  | 0, i => [(i, none)]
  | fuel + 1, i =>
    (((f i).filter fun x => i < x.1).flatMap fun x =>
      (starRuns f fuel x.1).map fun y => (y.1, y.2.orElse fun _ => x.2)) ++
      [(i, none)]

def runs (eqc : Char → Char → Bool) (s : List Char) : Rx → Nat → List (Nat × Span)
  | .fail, _ => []
  | .eps, i => [(i, none)]
  | .str cs, i =>
    match matchLits eqc s i cs with
    | some j => [(j, none)]
    | none => []
  | .cls p, i =>
    match charAt s i with
    | some c => if p c then [(i + 1, none)] else []
    | none => []
  | .seq a b, i =>
    (runs eqc s a i).flatMap fun x =>
      (runs eqc s b x.1).map fun y => (y.1, x.2.orElse fun _ => y.2)
  | .alt a b, i => runs eqc s a i ++ runs eqc s b i
  | .opt a, i => runs eqc s a i ++ [(i, none)]
  | .starC p, i =>
    let k := runLen p s i
    (List.range (k + 1)).map fun d => (i + (k - d), none)
  | .plusC p, i =>
    let k := runLen p s i
    (List.range k).map fun d => (i + (k - d), none)
  | .lazyStarC p, i =>
    let k := runLen p s i
    (List.range (k + 1)).map fun d => (i + d, none)
  | .lazyPlusC p, i =>
    let k := runLen p s i
    (List.range k).map fun d => (i + 1 + d, none)
  | .repC p lo hi, i =>
    let k := min (runLen p s i) hi
    if k < lo then [] else (List.range (k + 1 - lo)).map fun d => (i + (k - d), none)
  | .repAtLeastC p lo, i =>
    let k := runLen p s i
    if k < lo then [] else (List.range (k + 1 - lo)).map fun d => (i + (k - d), none)
  | .star a, i => starRuns (runs eqc s a) (s.length + 1) i
  | .bolOrNl, i =>
    (if i = 0 then [(i, (none : Span))]
     else match charAt s (i - 1) with
       | some c => if c = '\n' then [(i, none)] else []
       | none => []) ++
    (match charAt s i with
     | some c => if c = '\n' then [(i + 1, none)] else []
     | none => [])
  | .grp a, i => (runs eqc s a i).map fun x => (x.1, some (i, x.1))

/-- Leftmost match at or after position `p` (`fuel` counts the candidate
start positions left to try). -/
def firstFrom (eqc : Char → Char → Bool) (s : List Char) (r : Rx) :
    Nat → Nat → Option (Nat × Nat × Span)
  | 0, _ => none
  | fuel + 1, p =>
    if p ≤ s.length then
      match (runs eqc s r p).head? with
      | some (e, g) => some (p, e, g)
      | none => firstFrom eqc s r fuel (p + 1)
    else none

/-- Python `re.search`: the leftmost match as (start, end, group-1 span). -/
def reSearch (eqc : Char → Char → Bool) (s : List Char) (r : Rx) :
    Option (Nat × Nat × Span) :=
  firstFrom eqc s r (s.length + 1) 0

/-- Python `re.finditer`, from position `p` (non-overlapping matches,
scanning resumes at each match's end, or one past a zero-width match). -/
def finditGo (eqc : Char → Char → Bool) (s : List Char) (r : Rx) :
    Nat → Nat → List (Nat × Nat × Span)
  | 0, _ => []
  | fuel + 1, p =>
    match firstFrom eqc s r (s.length + 1 - p) p with
    | none => []
    | some (st, en, g) => (st, en, g) :: finditGo eqc s r fuel (max en (st + 1))

/-- Python `re.finditer` over the whole text. -/
def findit (eqc : Char → Char → Bool) (s : List Char) (r : Rx) :
    List (Nat × Nat × Span) :=
  finditGo eqc s r (s.length + 1) 0

/-- Python `sub[a:b]` on code points. -/
def sliceLC (s : List Char) (a b : Nat) : List Char := (s.drop a).take (b - a)

/-- Python `str.strip()` with the modelled whitespace. -/
def stripWS (s : List Char) : List Char :=
  ((s.dropWhile isPySpace).reverse.dropWhile isPySpace).reverse

/-- Python `needle in hay` (substring containment). -/
def containsSub (needle hay : List Char) : Bool :=
  needle.isPrefixOf hay ||
    match hay with
    | [] => false
    | _ :: t => containsSub needle t

/-- Python `hay.find(needle)`: index of the first occurrence, or none. -/
def idxOfSub (needle hay : List Char) : Option Nat :=
  if needle.isPrefixOf hay then some 0
  else
    match hay with
    | [] => none
    | _ :: t => (idxOfSub needle t).map (· + 1)

/-- Digits-to-number (for strings of ASCII digits). -/
def digitsToNat (s : List Char) : Nat :=
  s.foldl (fun a c => a * 10 + (c.toNat - 48)) 0

/-! ### `ContractParser._normalize_text` -/

/-- Step 1 of `_normalize_text`: if the Cyrillic-letter ratio is at least
0.6, remap Latin lookalikes to Cyrillic.  `cyr/total >= 0.6` is computed
exactly as `3 * total <= 5 * cyr` (`total = 0` gives ratio 0). -/
def cyrStep (t : List Char) : List Char :=
  let total := (t.filter pyIsAlpha).length
  let cyr := (t.filter isCyrForRatio).length
  if total ≠ 0 ∧ 3 * total ≤ 5 * cyr then t.map latinToCyr else t

/-- Step 2: `re.sub(r"(\w)-\n(\w)", r"\1\2", text)` — join hyphenation
broken at end of line.  Scanning resumes after each match's second word
character, as `re.sub` does. -/
def joinHyphF : Nat → List Char → List Char
  | 0, l => l
  | _ + 1, [] => []
  | fuel + 1, a :: rest =>
    match rest with
    | '-' :: '\n' :: b :: rest2 =>
      if isWordChar a && isWordChar b then a :: b :: joinHyphF fuel rest2
      else a :: joinHyphF fuel rest
    | _ => a :: joinHyphF fuel rest

/-- Step 2 entry point (the fuel bound is never exhausted: every step
consumes at least one character). -/
def joinHyph (l : List Char) : List Char := joinHyphF (l.length + 1) l

/-- Step 3: the chain of `str.replace` calls canonicalizing backtick and
the curly/modifier apostrophes to ASCII `'` (the sources are distinct and
none equals the target, so the chain is a pointwise map). -/
def apoMap (c : Char) : Char :=
  if c = '`' || c = '’' || c = 'ʻ' || c = 'ʼ' || c = '‘' then '\'' else c

/-- Space or tab (the class `[ \t]`). -/
def isHT (c : Char) : Bool := c = ' ' || c = '\t'

/-- A pending run of `rev.length` spaces/tabs flushed at a run boundary:
a maximal `[ \t]` run of length at least 2 becomes one space (the regex
matches maximal runs, and `re.sub` resumes after each match). -/
def flushHT (rev : List Char) : List Char :=
  if 2 ≤ rev.length then [' '] else rev.reverse

/-- Step 4 worker: `rev` accumulates (reversed) the current `[ \t]` run. -/
def cwAux (rev : List Char) : List Char → List Char
  | [] => flushHT rev
  | c :: t =>
    if isHT c then cwAux (c :: rev) t
    else flushHT rev ++ c :: cwAux [] t

/-- Step 4: `re.sub(r"[ \t]{2,}", " ", text)` — each maximal run of two or
more spaces/tabs becomes one space. -/
def collapseWS (l : List Char) : List Char := cwAux [] l

/-- Step 5a: `text.replace("\r\n", "\n")`. -/
def crlfJoinF : Nat → List Char → List Char
  | 0, l => l
  | _ + 1, [] => []
  | fuel + 1, a :: rest =>
    match rest with
    | '\n' :: rest2 =>
      if a = '\x0d' then '\n' :: crlfJoinF fuel rest2 else a :: crlfJoinF fuel rest
    | _ => a :: crlfJoinF fuel rest

/-- Step 5a entry point (the fuel bound is never exhausted). -/
def crlfJoin (l : List Char) : List Char := crlfJoinF (l.length + 1) l

/-- Step 5: line-ending normalization (`\r\n` then lone `\r` to `\n`). -/
def eolNormalize (t : List Char) : List Char :=
  (crlfJoin t).map fun c => if c = '\x0d' then '\n' else c

/-- Steps 3-5 of `_normalize_text` as one composite (apostrophe
canonicalization, whitespace collapsing, line-ending normalization). -/
def midNormalize (t : List Char) : List Char :=
  eolNormalize (collapseWS (t.map apoMap))

/-- The class `[\dIVX]` (case-sensitive: the insertion regex has no
`re.IGNORECASE`). -/
def isDigIVX (c : Char) : Bool := isPyDigit c || c = 'I' || c = 'V' || c = 'X'

/-- The class `[A-ZА-ЯЁЎҚҲҒ]` (uppercase only; case-sensitive here). -/
def isHdrUpper (c : Char) : Bool :=
  ('A' ≤ c && c ≤ 'Z') || (0x410 ≤ c.toNat && c.toNat ≤ 0x42F) ||
    c = 'Ё' || c = 'Ў' || c = 'Қ' || c = 'Ҳ' || c = 'Ғ'

/-- `.` or `)` (the class `[\.\)]`). -/
def isDotParen (c : Char) : Bool := c = '.' || c = ')'

/-- Parse `((?:[\dIVX]+|[A-ZА-ЯЁЎҚҲҒ]{1,3})[\.\)]\s*[A-ZА-ЯЁЎҚҲҒ])` at the
head of `l`; returns the number of characters consumed.  The classes
`[\dIVX]`/`[A-Z...]` are disjoint from `[\.\)]` and `\s` never satisfies
`[A-Z...]`, so only the maximal digit run, the maximal letter run (when at
most 3), and the maximal whitespace run can be followed by the required
character — backtracking to shorter runs can never succeed, and trying the
maximal runs alone is exact. -/
def hdParse (l : List Char) : Option Nat :=
  let digBranch :=
    let k := runLenFrom isDigIVX l
    if 1 ≤ k ∧ (charAt l k).any isDotParen then
      let w := runLen isPySpace l (k + 1)
      if (charAt l (k + 1 + w)).any isHdrUpper then some (k + 1 + w + 1) else none
    else none
  match digBranch with
  | some n => some n
  | none =>
    let k := runLenFrom isHdrUpper l
    if 1 ≤ k ∧ k ≤ 3 ∧ (charAt l k).any isDotParen then
      let w := runLen isPySpace l (k + 1)
      if (charAt l (k + 1 + w)).any isHdrUpper then some (k + 1 + w + 1) else none
    else none

/-- Step 6: `re.sub(r"(?<!\n)(\s)((?:[\dIVX]+|[A-ZА-ЯЁЎҚҲҒ]{1,3})[\.\)]\s*
[A-ZА-ЯЁЎҚҲҒ])", r"\1\n\2", text)` — insert a newline before a numbered /
lettered heading merged into the previous line.  `prevNl` tracks whether
the previous character is `\n` (the lookbehind); after a match the scan
resumes past the matched uppercase letter, which is never `\n`. -/
def insGoF : Nat → Bool → List Char → List Char
  | 0, _, l => l
  | _ + 1, _, [] => []
  | fuel + 1, prevNl, c :: rest =>
    if !prevNl && isPySpace c then
      match hdParse rest with
      | some k => c :: '\n' :: (rest.take k ++ insGoF fuel false (rest.drop k))
      | none => c :: insGoF fuel (c == '\n') rest
    else c :: insGoF fuel (c == '\n') rest

/-- Step 6 entry point (the fuel bound `length + 1` is never exhausted:
every step consumes at least one character). -/
def insGo (prevNl : Bool) (l : List Char) : List Char :=
  insGoF (l.length + 1) prevNl l

/-- Case-insensitive prefix test (Python `re` with `re.IGNORECASE`). -/
def ciIsPrefix : List Char → List Char → Bool
  | [], _ => true
  | _ :: _, [] => false
  | p :: ps, t :: ts => eqCI t p && ciIsPrefix ps ts

/-- Step 7 worker: `re.sub(rf"(?<!\n)\s({kw})", r"\n\1", text,
flags=re.IGNORECASE)` for one keyword — replace the whitespace character
before a known header phrase by a newline.  After a match the scan resumes
past the keyword, whose last character is a letter, never `\n`. -/
def kwGoF (kw : List Char) : Nat → Bool → List Char → List Char
  | 0, _, l => l
  | _ + 1, _, [] => []
  | fuel + 1, prevNl, c :: rest =>
    if !prevNl && isPySpace c && ciIsPrefix kw rest then
      '\n' :: (rest.take kw.length ++ kwGoF kw fuel false (rest.drop kw.length))
    else c :: kwGoF kw fuel (c == '\n') rest

/-- Step 7 entry point (the fuel bound is never exhausted). -/
def kwGo (kw : List Char) (prevNl : Bool) (l : List Char) : List Char :=
  kwGoF kw (l.length + 1) prevNl l

/-- The parser's `header_keywords` list, in source order.  (`БAЖАРИШ` in
the tenth entry contains a Latin `A`, as in the source.) -/
def headerKeywords : List (List Char) :=
  [lc "ПРЕДМЕТ ДОГОВОРА", lc "ЦЕНА ДОГОВОРА", lc "ПОРЯДОК РАСЧЕТОВ",
   lc "СРОК ДЕЙСТВИЯ", lc "ОТВЕТСТВЕННОСТЬ", lc "ЮРИДИЧЕСКИЕ АДРЕСА",
   lc "РЕКВИЗИТЫ СТОРОН", lc "ШАРТНОМА МАВЗУСИ",
   lc "ШАРТНОМА БЎЙИЧА ИШЛАР ҚИЙМАТИ", lc "ИШЛАРНИ БAЖАРИШ МУДДАТЛАРИ",
   lc "Шартнома предмети", lc "Narx", lc "Muddat", lc "Javobgarlik",
   lc "Rekvizitlari", lc "ШАРТНОМАНИНГ БАҲОСИ", lc "ҲИСОБ-КИТОБ",
   lc "БАНК РЕКВИЗИТЛАРИ", lc "ШАРТНОМАНИНГ АМАЛ ҚИЛИШИ"]

/-- `ContractParser._normalize_text`. -/
def pyNormalize (t : List Char) : List Char :=
  if t.isEmpty then t
  else
    let t2 := joinHyph (cyrStep t)
    let t5 := midNormalize t2
    let t6 := insGo false t5
    headerKeywords.foldl (fun acc kw => kwGo kw false acc) t6

/-! ### Section data model and `SECTION_PATTERNS` -/

/-- The `SectionType` enum. -/
inductive SectionType where
  | header | parties | subject | rights | obligations | price | delivery
  | quality | warranty | liability | force_majeure | dispute | term
  | termination | confidential | additional | requisites | signatures | other
deriving DecidableEq, BEq, Repr

/-- A compiled pattern: the transliterated regex plus whether the source had
`re.IGNORECASE`. -/
structure CPat where
  ci : Bool
  rx : Rx

/-- All matches of a compiled pattern in a text (Python `pattern.finditer`). -/
def cpFindAll (p : CPat) (s : List Char) : List (Nat × Nat × Span) :=
  findit (if p.ci then eqCI else eqCS) s p.rx

/-- First match of a compiled pattern (Python `re.search`). -/
def cpSearch (p : CPat) (s : List Char) : Option (Nat × Nat × Span) :=
  reSearch (if p.ci then eqCI else eqCS) s p.rx

/-- A phrase whose words are separated by `\s+` in the source pattern. -/
def ph (s : String) : Rx :=
  match (lc s).splitOn ' ' with
  | [] => Rx.eps
  | t :: ts => ts.foldl (fun r tk => Rx.seq r (Rx.seq (Rx.plusC isPySpace) (Rx.str tk))) (Rx.str t)

/-- `\s*` -/
def wsS : Rx := Rx.starC isPySpace

/-- `\s+` -/
def wsP : Rx := Rx.plusC isPySpace

/-- `\w*` -/
def wStar : Rx := Rx.starC isWordChar

/-- `.*` without `re.DOTALL`. -/
def dotStar : Rx := Rx.starC (fun c => c ≠ '\n')

/-- The class `[']` written `['']` in the source (both characters are the
ASCII apostrophe). -/
def apoCls : Rx := Rx.cls (fun c => c = '\'')

/-- `[\dIVX]` under `re.IGNORECASE` (also i, v, x). -/
def isDigIVXci (c : Char) : Bool :=
  isPyDigit c || c = 'I' || c = 'V' || c = 'X' || c = 'i' || c = 'v' || c = 'x'

/-- `[\dIVXХ]` (LIABILITY pattern 5; the last letter is Cyrillic Х) under
`re.IGNORECASE`. -/
def isDigIVXXci (c : Char) : Bool := isDigIVXci c || c = 'Х' || c = 'х'

/-- `[A-ZА-ЯЁЎҚҲҒ]` under `re.IGNORECASE` (both cases). -/
def isHdrLetterCI (c : Char) : Bool :=
  isHdrUpper c || ('a' ≤ c && c ≤ 'z') || (0x430 ≤ c.toNat && c.toNat ≤ 0x44F) ||
    c = 'ё' || c = 'ў' || c = 'қ' || c = 'ҳ' || c = 'ғ'

/-- `(?:(?:[\dIVX]+|[A-ZА-ЯЁЎҚҲҒ]{1,3})[\.\)]\s*)` with `re.IGNORECASE`. -/
def numPrefCI : Rx :=
  Rx.cat [Rx.alt (Rx.plusC isDigIVXci) (Rx.repC isHdrLetterCI 1 3),
    Rx.cls isDotParen, wsS]

/-- The same prefix case-sensitively (PRICE patterns 3 and 4 have no `(?i)`). -/
def numPrefCS : Rx :=
  Rx.cat [Rx.alt (Rx.plusC isDigIVX) (Rx.repC isHdrUpper 1 3),
    Rx.cls isDotParen, wsS]

/-- `(?:(?:\d+|[A-ZА-ЯЁЎҚҲҒ]{1,3})[\.\)]\s*)` (RIGHTS patterns). -/
def numPrefD : Rx :=
  Rx.cat [Rx.alt (Rx.plusC isPyDigit) (Rx.repC isHdrLetterCI 1 3),
    Rx.cls isDotParen, wsS]

/-- `(?:(?:[\dIVXХ]+|[A-ZА-ЯЁЎҚҲҒ]{1,3})[\.\)]\s*)` (LIABILITY pattern 5). -/
def numPrefX : Rx :=
  Rx.cat [Rx.alt (Rx.plusC isDigIVXXci) (Rx.repC isHdrLetterCI 1 3),
    Rx.cls isDotParen, wsS]

/-- `(?:^|\n)\s*(?:PREF)?(?:alts)`: the standard header shape. -/
def stdHdrW (pref : Rx) (alts : List Rx) : Rx :=
  Rx.cat [Rx.bolOrNl, wsS, Rx.opt pref, Rx.altL alts]

/-- Standard case-insensitive header pattern. -/
def stdHdr (alts : List Rx) : CPat := ⟨true, stdHdrW numPrefCI alts⟩

/-- `[ЁЕ]` under `re.IGNORECASE`. -/
def isYoE (c : Char) : Bool := c = 'Ё' || c = 'Е' || c = 'ё' || c = 'е'

/-- `ContractParser.SECTION_PATTERNS`, in the source's key and list order,
each regex transliterated (see the comments citing the original). -/
def sectionPatternTable : List (SectionType × List CPat) :=
  [(SectionType.subject,
    [ -- (?i)(?:^|\n)\s*(?:PREF)?(?:SHARTNOMA\s+PREDMETI|Shartnoma\s+mavzusi)
     stdHdr [ph "SHARTNOMA PREDMETI", ph "Shartnoma mavzusi"],
     -- (?i)... (?:PREDMET|MAVZU|SHARTNOMA\s+MAVZUSI)
     stdHdr [ph "PREDMET", ph "MAVZU", ph "SHARTNOMA MAVZUSI"],
     -- (?i)... (?:ПРЕДМЕТ\s+ДОГОВОРА|ШАРТНОМА\s+ПРЕДМЕТИ)
     stdHdr [ph "ПРЕДМЕТ ДОГОВОРА", ph "ШАРТНОМА ПРЕДМЕТИ"],
     -- (?i)... (?:ШАРТНОМА\s+МАВЗУСИ|МАВЗУ)
     stdHdr [ph "ШАРТНОМА МАВЗУСИ", ph "МАВЗУ"],
     -- (?i)(?:^|\n)\s*(?:Мавзуси)
     ⟨true, Rx.cat [Rx.bolOrNl, wsS, ph "Мавзуси"]⟩,
     -- (?i)(?:^|\n)\s*(?:[\dIVX]+|[A-Z...]{1,3})[\.\)]?\s*(?:\n\s*)?(?:ШАРТНОМА\s+ПРЕДМЕТИ|ШАРТНОМА\s+МАВЗУСИ)
     ⟨true, Rx.cat [Rx.bolOrNl, wsS,
        Rx.alt (Rx.plusC isDigIVXci) (Rx.repC isHdrLetterCI 1 3),
        Rx.opt (Rx.cls isDotParen), wsS,
        Rx.opt (Rx.seq (Rx.cls (· = '\n')) wsS),
        Rx.altL [ph "ШАРТНОМА ПРЕДМЕТИ", ph "ШАРТНОМА МАВЗУСИ"]]⟩]),
   (SectionType.parties,
    [stdHdr [ph "TOMONLAR", ph "СТОРОНЫ", ph "Taraflar"],
     -- (?i)bir\s+tomondan.*boshqa\s+tomondan
     ⟨true, Rx.cat [ph "bir tomondan", dotStar, ph "boshqa tomondan"]⟩,
     -- (?i)с\s+одной\s+стороны.*с\s+другой\s+стороны
     ⟨true, Rx.cat [ph "с одной стороны", dotStar, ph "с другой стороны"]⟩,
     stdHdr [ph "ТОМОНЛАР", ph "Тарафлар"],
     -- (?i)бир\s+томондан.*иккинчи\s+томондан
     ⟨true, Rx.cat [ph "бир томондан", dotStar, ph "иккинчи томондан"]⟩]),
   (SectionType.rights,
    [ -- prefix here is (?:\d+|[A-Z...]{1,3})
     ⟨true, stdHdrW numPrefD [ph "TOMONLARNING HUQUQLARI", ph "ПРАВА СТОРОН", ph "Huquqlar"]⟩,
     ⟨true, stdHdrW numPrefD [ph "ҲУҚУҚЛАР", ph "Ҳуқуқлар"]⟩]),
   (SectionType.obligations,
    [stdHdr [ph "TOMONLARNING MAJBURIYATLARI", ph "ОБЯЗАННОСТИ СТОРОН", ph "Majburiyatlar"],
     stdHdr [ph "HUQUQ VA MAJBURIYATLAR", ph "ПРАВА И ОБЯЗАННОСТИ"],
     stdHdr [ph "МАЖБУРИЯТЛАР", ph "Мажбуриятлар", ph "ҲУҚУҚ ВА МАЖБУРИЯТЛАР"]]),
   (SectionType.price,
    [stdHdr [ph "SHARTNOMA NARXI", ph "Shartnoma narxi"],
     -- (?i)... (?:NARX\s+VA\s+TO['']LOV|QIYMAT|ISHLAR\s+QIYMATI)
     ⟨true, stdHdrW numPrefCI
       [Rx.cat [ph "NARX", wsP, ph "VA", wsP, Rx.str (lc "TO"), apoCls, Rx.str (lc "LOV")],
        ph "QIYMAT", ph "ISHLAR QIYMATI"]⟩,
     -- case-sensitive: (?:^|\n)\s*(?:PREF)?(?:ЦЕНА\s+ДОГОВОРА|ЦЕНА\s+И\s+ПОРЯДОК\s+РАСЧЕТОВ|СТОИМОСТЬ)
     ⟨false, stdHdrW numPrefCS
       [ph "ЦЕНА ДОГОВОРА", ph "ЦЕНА И ПОРЯДОК РАСЧЕТОВ", ph "СТОИМОСТЬ"]⟩,
     -- case-sensitive: ... (?:ПОРЯДОК\s+ОПЛАТЫ)
     ⟨false, stdHdrW numPrefCS [ph "ПОРЯДОК ОПЛАТЫ"]⟩,
     stdHdr [ph "ШАРТНОМА БЎЙИЧА ИШЛАР ҚИЙМАТИ", ph "ИШЛАР ҚИЙМАТИ",
       ph "ШАРТНОМА НАРХИ", ph "НАРХ ВА ТЎЛОВ", ph "ТЎЛОВ ТАРТИБИ",
       ph "ТЎЛОВЛАР ВА ҲИСОБ-КИТОБЛАР", ph "СТОИМОСТЬ РАБОТ",
       ph "ШАРТНОМАНИНГ БАҲОСИ ВА ҲИСОБ-КИТОБ ТАРТИБИ"],
     -- (?i)(?:^|\n)\s*(?:[\dIVX]+|[A-Z...]{1,3})[\.\)]?\s*(?:\n\s*)?(?:ШАРТНОМАНИНГ\s+БАҲОСИ\s+ВА\s+ҲИСОБ-КИТОБ\s+ТАРТИБИ)
     ⟨true, Rx.cat [Rx.bolOrNl, wsS,
        Rx.alt (Rx.plusC isDigIVXci) (Rx.repC isHdrLetterCI 1 3),
        Rx.opt (Rx.cls isDotParen), wsS,
        Rx.opt (Rx.seq (Rx.cls (· = '\n')) wsS),
        ph "ШАРТНОМАНИНГ БАҲОСИ ВА ҲИСОБ-КИТОБ ТАРТИБИ"]⟩]),
   (SectionType.delivery,
    [stdHdr [ph "YETKAZIB BERISH", ph "ПОСТАВКА", ph "ДОСТАВКА"],
     stdHdr [ph "TOPSHIRISH TARTIBI", ph "ПОРЯДОК СДАЧИ"],
     stdHdr [ph "ЕТКАЗИБ БЕРИШ", ph "ТОПШИРИШ ТАРТИБИ"],
     -- ... (?:СРОКИ\s+И\s+ПОРЯДОК\s+ПОСТАВК\w*)
     ⟨true, stdHdrW numPrefCI
       [Rx.cat [ph "СРОКИ", wsP, ph "И", wsP, ph "ПОРЯДОК", wsP, Rx.str (lc "ПОСТАВК"), wStar]]⟩,
     -- ... (?:ПОРЯДОК\s+ПРИ[ЁЕ]М\w*\s*ПЕРЕДАЧ\w*\s*ТОВАР\w*)
     ⟨true, stdHdrW numPrefCI
       [Rx.cat [ph "ПОРЯДОК", wsP, Rx.str (lc "ПРИ"), Rx.cls isYoE, Rx.str (lc "М"),
         wStar, wsS, Rx.str (lc "ПЕРЕДАЧ"), wStar, wsS, Rx.str (lc "ТОВАР"), wStar]]⟩,
     -- ... (?:ПРИ[ЁЕ]МКА\s*И\s*ПЕРЕДАЧ\w*)
     ⟨true, stdHdrW numPrefCI
       [Rx.cat [Rx.str (lc "ПРИ"), Rx.cls isYoE, Rx.str (lc "МКА"), wsS,
         Rx.str (lc "И"), wsS, Rx.str (lc "ПЕРЕДАЧ"), wStar]]⟩]),
   (SectionType.quality,
    [stdHdr [ph "SIFAT TALABLARI", ph "ТРЕБОВАНИЯ К КАЧЕСТВУ", ph "Sifat"],
     stdHdr [ph "СИФАТ ТАЛАБЛАРИ"],
     stdHdr [ph "КАЧЕСТВО И КОЛИЧЕСТВО ПРОДУКЦИИ"]]),
   (SectionType.warranty,
    [stdHdr [ph "KAFOLAT", ph "ГАРАНТИЯ", ph "ГАРАНТИЙНЫЕ"],
     stdHdr [ph "КАФОЛАТ"]]),
   (SectionType.liability,
    [stdHdr [ph "JAVOBGARLIK", ph "ОТВЕТСТВЕННОСТЬ"],
     stdHdr [ph "MODDIY JAVOBGARLIK", ph "МАТЕРИАЛЬНАЯ ОТВЕТСТВЕННОСТЬ"],
     stdHdr [ph "ЖАВОБГАРЛИК"],
     stdHdr [ph "ОТВЕТСТВЕННОСТЬ СТОРОН", ph "ТОМОНЛАРНИНГ ЖАВОБГАРЛИГИ"],
     -- prefix (?:[\dIVXХ]+|[A-Z...]{1,3}) — note the Cyrillic Х
     ⟨true, stdHdrW numPrefX [ph "МУЛКИЙ ЖАВОБГАРЛИГИ", ph "ТОМОНЛАРНИНГ МУЛКИЙ ЖАВОБГАРЛИГИ"]⟩]),
   (SectionType.force_majeure,
    [stdHdr [ph "FORS-MAJOR", ph "ФОРС-МАЖОР", ph "Favqulodda holatlar"],
     stdHdr [ph "ФОРС-МАЖОР"]]),
   (SectionType.dispute,
    [stdHdr [ph "NIZOLARNI HAL QILISH", ph "РАЗРЕШЕНИЕ СПОРОВ", ph "Nizolar"],
     stdHdr [ph "НИЗОЛАРНИ ҲАЛ ҚИЛИШ", ph "НИЗОЛАР"]]),
   (SectionType.term,
    [stdHdr [ph "SHARTNOMA MUDDATI", ph "СРОК ДЕЙСТВИЯ", ph "СРОК ДОГОВОРА"],
     stdHdr [ph "AMAL QILISH MUDDATI", ph "MUDDATI"],
     stdHdr [ph "ШАРТНОМА МУДДАТИ", ph "АМАЛ ҚИЛИШ МУДДАТИ",
       ph "ШАРТНОМАНИНГ АМАЛ ҚИЛИШИ", ph "ИШЛАРНИ БАЖАРИШ МУДДАТЛАРИ",
       ph "СРОКИ ВЫПОЛНЕНИЯ РАБОТ"],
     -- (?i)(?:ШАРТНОМАНИНГ\s+АМАЛ\s+КИЛИШ\s+МУДДАТИ|АМАЛ\s+КИЛИШ\s+МУДДАТИ) (no anchor)
     ⟨true, Rx.altL [ph "ШАРТНОМАНИНГ АМАЛ КИЛИШ МУДДАТИ", ph "АМАЛ КИЛИШ МУДДАТИ"]⟩,
     -- (?i)(?:amal\s+qiladi|действует|срок|amал\s+kili?sh\s+muddat[iy]) — "amал" is mixed-script in the source
     ⟨true, Rx.altL [ph "amal qiladi", ph "действует", ph "срок",
        Rx.cat [Rx.str (lc "amал"), wsP, Rx.str (lc "kil"), Rx.opt (Rx.cls (· = 'i')),
          Rx.str (lc "sh"), wsP, Rx.str (lc "muddat"),
          Rx.cls (fun c => c = 'i' || c = 'y')]]⟩]),
   (SectionType.termination,
    [stdHdr [ph "SHARTNOMANI BEKOR QILISH", ph "РАСТОРЖЕНИЕ ДОГОВОРА"],
     stdHdr [ph "ШАРТНОМАНИ БЕКОР ҚИЛИШ"]]),
   (SectionType.confidential,
    [stdHdr [ph "MAXFIYLIK", ph "КОНФИДЕНЦИАЛЬНОСТЬ"],
     stdHdr [ph "МАХФИЙЛИК"]]),
   (SectionType.additional,
    [ -- (?:QO['']SHIMCHA\s+SHARTLAR|ДОПОЛНИТЕЛЬНЫЕ\s+УСЛОВИЯ)
     ⟨true, stdHdrW numPrefCI
       [Rx.cat [Rx.str (lc "QO"), apoCls, Rx.str (lc "SHIMCHA"), wsP, Rx.str (lc "SHARTLAR")],
        ph "ДОПОЛНИТЕЛЬНЫЕ УСЛОВИЯ"]⟩,
     stdHdr [ph "BOSHQA SHARTLAR", ph "ПРОЧИЕ УСЛОВИЯ"],
     stdHdr [ph "YAKUNIY QOIDALAR", ph "ЗАКЛЮЧИТЕЛЬНЫЕ ПОЛОЖЕНИЯ"],
     stdHdr [ph "ҚЎШИМЧА ШАРТЛАР", ph "БОШҚА ШАРТЛАР", ph "ЯКУНИЙ ҚОИДАЛАР"]]),
   (SectionType.requisites,
    [stdHdr [ph "TOMONLARNING REKVIZITLARI", ph "РЕКВИЗИТЫ СТОРОН"],
     stdHdr [ph "YURIDIK MANZILLAR", ph "ЮРИДИЧЕСКИЕ АДРЕСА"],
     stdHdr [ph "ТОМОНЛАРНИНГ РЕКВИЗИТЛАРИ", ph "ЮРИДИК МАНЗИЛЛАР"],
     stdHdr [ph "REKVIZIT", ph "РЕКВИЗИТ"],
     stdHdr [ph "ЮРИДИЧЕСКИЕ АДРЕСА И РЕКВИЗИТЫ СТОРОН"],
     -- (?i)(?:^|\n)\s*(?:Исполнитель|Заказчик)\s*[:–—]
     ⟨true, Rx.cat [Rx.bolOrNl, wsS, Rx.altL [ph "Исполнитель", ph "Заказчик"], wsS,
        Rx.cls (fun c => c = ':' || c = '–' || c = '—')]⟩,
     stdHdr [ph "БАНК РЕКВИЗИТЛАРИ"]]),
   (SectionType.signatures,
    [ -- (?i)(?:^|\n)\s*(?:IMZOLAR|ПОДПИСИ\s+СТОРОН)
     ⟨true, Rx.cat [Rx.bolOrNl, wsS, Rx.altL [ph "IMZOLAR", ph "ПОДПИСИ СТОРОН"]]⟩,
     -- (?i)M\.O['']\..*M\.O['']
     ⟨true, Rx.cat [Rx.str (lc "M.O"), apoCls, Rx.str (lc "."), dotStar,
        Rx.str (lc "M.O"), apoCls]⟩,
     ⟨true, Rx.cat [Rx.bolOrNl, wsS, ph "ИМЗОЛАР"]⟩])]

/-! ### `_find_section_positions` and `_extract_sections` -/

/-- One candidate section heading: `(match.start, match.end, section_type,
match.group(0).strip())`. -/
structure SPos where
  start : Nat
  stop : Nat
  ty : SectionType
  title : List Char
deriving DecidableEq, Repr

/-- All raw candidates, over the pattern table in source order. -/
def rawPositions (t : List Char) : List SPos :=
  sectionPatternTable.flatMap fun pr =>
    pr.2.flatMap fun p =>
      (cpFindAll p t).map fun m =>
        ⟨m.1, m.2.1, pr.1, stripWS (sliceLC t m.1 m.2.1)⟩

/-- `_find_section_positions`'s `priority` dict (default 50). -/
def priorityOf : SectionType → Nat
  | .requisites => 1
  | .liability => 2
  | .term => 3
  | .price => 4
  | .subject => 5
  | .parties => 9
  | _ => 50

/-- The same-start collision filter: a Python dict keyed by start offset,
in first-insertion order, where a later candidate replaces the stored one
only when its type has strictly higher priority (smaller number). -/
def collideGo (acc : List SPos) : List SPos → List SPos
  | [] => acc
  | x :: rest =>
    if acc.any (fun y => y.start == x.start) then
      collideGo (acc.map fun y =>
        if y.start == x.start && priorityOf x.ty < priorityOf y.ty then x else y) rest
    else collideGo (acc ++ [x]) rest

/-- Sort key: ascending start offset (`positions.sort(key=lambda x: x[0])`). -/
def sposLe (a b : SPos) : Prop := a.start ≤ b.start

instance : DecidableRel sposLe := fun a b => Nat.decLe a.start b.start

instance : IsTotal SPos sposLe := ⟨fun a b => Nat.le_total a.start b.start⟩

instance : IsTrans SPos sposLe := ⟨fun _ _ _ => Nat.le_trans⟩

/-- Drop exact `(start, type)` duplicates, keeping first occurrences. -/
def dedupGo (seen : List (Nat × SectionType)) : List SPos → List SPos
  | [] => []
  | x :: rest =>
    if seen.contains (x.start, x.ty) then dedupGo seen rest
    else x :: dedupGo ((x.start, x.ty) :: seen) rest

/-- `ContractParser._find_section_positions` over normalized text. -/
def findSectionPositions (t : List Char) : List SPos :=
  let raw := rawPositions t
  let filtered := if raw.isEmpty then raw else collideGo [] raw
  dedupGo [] (List.insertionSort sposLe filtered)

/-- A parsed `Section` (the claims do not refer to `clauses`, so
`_extract_clauses` is not modelled and the field is omitted). -/
structure PSection where
  section_type : SectionType
  title : List Char
  number : List Char
  content : List Char
  start_pos : Nat
  end_pos : Nat
deriving DecidableEq, Repr

/-- `re.match(r'^(\d+)[\.\)]', title)`: the leading number of a title. -/
def numberOfTitle (title : List Char) : List Char :=
  let k := runLenFrom isPyDigit title
  if 1 ≤ k ∧ (charAt title k).any isDotParen then title.take k else []

/-- The per-heading loop of `_extract_sections`: each section's content runs
from the end of its heading match to the start of the next heading (or the
end of the text). -/
def buildSecs (t : List Char) : List SPos → List PSection
  | [] => []
  | p :: rest =>
    let e := match rest with
      | q :: _ => q.start
      | [] => t.length
    ⟨p.ty, p.title, numberOfTitle p.title, stripWS (sliceLC t p.stop e), p.start, e⟩ ::
      buildSecs t rest

/-- `ContractParser._extract_sections`: an optional HEADER section for
non-empty text before the first heading, then one section per heading. -/
def extractSecs (t : List Char) (ps : List SPos) : List PSection :=
  match ps with
  | [] => []
  | p :: _ =>
    (if 0 < p.start ∧ stripWS (t.take p.start) ≠ [] then
      [⟨SectionType.header, lc "Sarlavha", [], stripWS (t.take p.start), 0, p.start⟩]
     else []) ++ buildSecs t ps

/-- The section half of `ContractParser.parse`: normalize, locate headings,
slice sections. -/
def parseSections (t : List Char) : List PSection :=
  let nt := pyNormalize t
  extractSecs nt (findSectionPositions nt)

/-! ### `_extract_metadata`: amount, currency; `_detect_language`

Only the metadata fields a claim refers to are modelled (`total_amount`,
`currency`, `language`); contract number/date, INN and party-name
extraction have no bearing on any claim. -/

/-- `[\d\s]` -/
def isDigWS (c : Char) : Bool := isPyDigit c || isPySpace c

/-- `[\.,]` -/
def isDotComma (c : Char) : Bool := c = '.' || c = ','

/-- `\d{n}` -/
def dRep (lo hi : Nat) : Rx := Rx.repC isPyDigit lo hi

/-- `\(...\)` with `[^)]*` inside. -/
def parenGrp : Rx :=
  Rx.cat [Rx.cls (· = '('), Rx.starC (· ≠ ')'), Rx.cls (· = ')')]

/-- The group `(\d{1,3}[\s]*(?:\d{3}[\s]*)*(?:\d{1,3})?)` of amount
patterns 6 and 7. -/
def amtGrp67 : Rx :=
  Rx.grp (Rx.cat [dRep 1 3, wsS, Rx.star (Rx.seq (dRep 3 3) wsS), Rx.opt (dRep 1 3)])

/-- The group `(\d[\d\s]*[\.,]?\d*)` of amount patterns 8, 10, 12, 13. -/
def amtGrpTail : Rx :=
  Rx.grp (Rx.cat [Rx.cls isPyDigit, Rx.starC isDigWS, Rx.opt (Rx.cls isDotComma),
    Rx.starC isPyDigit])

/-- The group `(\d[\d\s\.,]*\d?)` of amount patterns 9 and 11. -/
def amtGrpDots : Rx :=
  Rx.grp (Rx.cat [Rx.cls isPyDigit,
    Rx.starC (fun c => isDigWS c || c = '.' || c = ','), Rx.opt (Rx.cls isPyDigit)])

/-- `METADATA_PATTERNS['amount']`, in source order (all `re.IGNORECASE`). -/
def amountPatterns : List CPat :=
  [ -- (\d{1,3}(?:\s\d{3}){2}(?:[\.,]\d{2})?)\s*(?:\([^)]*\))?\s*(?:сумни|сум|сўм|uzs|usd|eur|rub|кк,?с|ққс)?
   ⟨true, Rx.cat [Rx.grp (Rx.cat [dRep 1 3, Rx.cls isPySpace, dRep 3 3,
      Rx.cls isPySpace, dRep 3 3, Rx.opt (Rx.seq (Rx.cls isDotComma) (dRep 2 2))]),
     wsS, Rx.opt parenGrp, wsS,
     Rx.opt (Rx.altL [ph "сумни", ph "сум", ph "сўм", ph "uzs", ph "usd", ph "eur",
       ph "rub", Rx.cat [Rx.str (lc "кк"), Rx.opt (Rx.cls (· = ',')), Rx.str (lc "с")],
       ph "ққс"])]⟩,
   -- (?:шартноманинг|шартнома\s+буйича\s+(?:ишлар\s+)?|ишлар\s+)?(?:умумий\s+)?(?:қиймати|киймати|нарх[и]?)\s*(?:таҳминий\s+)?(?:ққс\s+билан\s+)?([\d\s]{10,})
   ⟨true, Rx.cat [
     Rx.opt (Rx.altL [ph "шартноманинг",
       Rx.cat [ph "шартнома", wsP, ph "буйича", wsP, Rx.opt (Rx.seq (ph "ишлар") wsP)],
       Rx.seq (ph "ишлар") wsP]),
     Rx.opt (Rx.seq (ph "умумий") wsP),
     Rx.altL [ph "қиймати", ph "киймати", Rx.seq (ph "нарх") (Rx.opt (Rx.cls (· = 'и')))],
     wsS, Rx.opt (Rx.seq (ph "таҳминий") wsP),
     Rx.opt (Rx.cat [ph "ққс", wsP, ph "билан", wsP]),
     Rx.grp (Rx.repAtLeastC isDigWS 10)]⟩,
   -- (?:шартнома\s+буйича\s+(?:ишлар\s+)?киймати|киймати|нарх[и]?)\s*(?:барча\s+соликлар[,\s]*)?[\s]*(\d[\d\s]+)\s*(?:сум|сўм|UZS|USD|EUR|RUB)
   ⟨true, Rx.cat [
     Rx.altL [Rx.cat [ph "шартнома", wsP, ph "буйича", wsP,
        Rx.opt (Rx.seq (ph "ишлар") wsP), ph "киймати"],
       ph "киймати", Rx.seq (ph "нарх") (Rx.opt (Rx.cls (· = 'и')))],
     wsS,
     Rx.opt (Rx.cat [ph "барча", wsP, ph "соликлар",
       Rx.starC (fun c => c = ',' || isPySpace c)]),
     wsS, Rx.grp (Rx.seq (Rx.cls isPyDigit) (Rx.plusC isDigWS)), wsS,
     Rx.altL [ph "сум", ph "сўм", ph "UZS", ph "USD", ph "EUR", ph "RUB"]]⟩,
   -- (?:шартнома\s+буйича\s+ишлар|ишлар\s+қиймати|қиймати|нарх[и]?)\s*[\s]*(\d[\d\s]+)\s*(?:сумни|сум|сўм|UZS|USD|EUR|RUB)
   ⟨true, Rx.cat [
     Rx.altL [ph "шартнома буйича ишлар", ph "ишлар қиймати", ph "қиймати",
       Rx.seq (ph "нарх") (Rx.opt (Rx.cls (· = 'и')))],
     wsS, wsS, Rx.grp (Rx.seq (Rx.cls isPyDigit) (Rx.plusC isDigWS)), wsS,
     Rx.altL [ph "сумни", ph "сум", ph "сўм", ph "UZS", ph "USD", ph "EUR", ph "RUB"]]⟩,
   -- (\d{1,3}[\s]+\d{3}[\s]+\d{3}[\s]+\d{3})\s*(?:сумни|сумлик|\(|сум|сўм|млн\s+сўм|млрд\s+сўм)
   ⟨true, Rx.cat [
     Rx.grp (Rx.cat [dRep 1 3, wsP, dRep 3 3, wsP, dRep 3 3, wsP, dRep 3 3]),
     wsS,
     Rx.altL [ph "сумни", ph "сумлик", Rx.cls (· = '('), ph "сум", ph "сўм",
       ph "млн сўм", ph "млрд сўм"]]⟩,
   -- (\d{1,3}[\s]*(?:\d{3}[\s]*)*(?:\d{1,3})?)\s*(?:млрд\s+(?:сўм|сум)|млн\s+(?:сўм|сум))
   ⟨true, Rx.cat [amtGrp67, wsS,
     Rx.altL [Rx.cat [ph "млрд", wsP, Rx.alt (ph "сўм") (ph "сум")],
       Rx.cat [ph "млн", wsP, Rx.alt (ph "сўм") (ph "сум")]]]⟩,
   -- (\d{1,3}[\s]*(?:\d{3}[\s]*)*(?:\d{1,3})?)\s*(?:so['']m|so[''`]?m|сум|сўм|UZS|USD|EUR|RUB|₽|\$)
   ⟨true, Rx.cat [amtGrp67, wsS,
     Rx.altL [Rx.cat [Rx.str (lc "so"), apoCls, Rx.str (lc "m")],
       Rx.cat [Rx.str (lc "so"), Rx.opt (Rx.cls (fun c => c = '\'' || c = '`')),
         Rx.str (lc "m")],
       ph "сум", ph "сўм", ph "UZS", ph "USD", ph "EUR", ph "RUB",
       Rx.cls (· = '₽'), Rx.cls (· = '$')]]⟩,
   -- jami\s*[:=]?\s*(\d[\d\s]*[\.,]?\d*)
   ⟨true, Rx.cat [ph "jami", wsS, Rx.opt (Rx.cls (fun c => c = ':' || c = '=')), wsS,
     amtGrpTail]⟩,
   -- (?:umumiy\s+qiymati|jami\s+qiymati|to\'liq\s+qiymati)\s*[:=—-]?\s*(\d[\d\s\.,]*\d?)
   ⟨true, Rx.cat [
     Rx.altL [ph "umumiy qiymati", ph "jami qiymati", ph "to'liq qiymati"],
     wsS, Rx.opt (Rx.cls (fun c => c = ':' || c = '=' || c = '—' || c = '-')), wsS,
     amtGrpDots]⟩,
   -- (?:итого|Итого)\s*[:=]?\s*(\d[\d\s]*[\.,]?\d*)
   ⟨true, Rx.cat [Rx.alt (ph "итого") (ph "Итого"), wsS,
     Rx.opt (Rx.cls (fun c => c = ':' || c = '=')), wsS, amtGrpTail]⟩,
   -- (?:общая\s+сумма\s+договора|сумма\s+договора)\s*[:=—-]?\s*(\d[\d\s\.,]*\d?)
   ⟨true, Rx.cat [
     Rx.alt (ph "общая сумма договора") (ph "сумма договора"), wsS,
     Rx.opt (Rx.cls (fun c => c = ':' || c = '=' || c = '—' || c = '-')), wsS,
     amtGrpDots]⟩,
   -- (\d[\d\s]*[\.,]?\d*)\s*(?:uzs|usd|eur|rub)
   ⟨true, Rx.cat [amtGrpTail, wsS, Rx.altL [ph "uzs", ph "usd", ph "eur", ph "rub"]]⟩,
   -- (?:shartnoma\s+summasi|shartnoma\s+narxi|shartnoma\s+bo'yicha\s+ishlar\s+qiymati|jami)\s*[:=]?\s*(\d[\d\s]*[\.,]?\d*)
   ⟨true, Rx.cat [
     Rx.altL [ph "shartnoma summasi", ph "shartnoma narxi",
       ph "shartnoma bo'yicha ishlar qiymati", ph "jami"],
     wsS, Rx.opt (Rx.cls (fun c => c = ':' || c = '=')), wsS, amtGrpTail]⟩]

/-- The three `formatted_amount_patterns` of the first amount fallback
(NBSP-separated figures), in source order. -/
def fbPatterns : List CPat :=
  [ -- (5\xa0600\xa0000\xa0000\.00)\s*\([^)]*\)\s*сўмни
   ⟨true, Rx.cat [Rx.grp (Rx.str (lc "5\u00a0600\u00a0000\u00a0000.00")), wsS,
     parenGrp, wsS, ph "сўмни"]⟩,
   -- (\d[\d\xa0]+\.?\d*)\s*(?:\([^)]*\))?\s*(?:сўмни|сум)
   ⟨true, Rx.cat [Rx.grp (Rx.cat [Rx.cls isPyDigit,
      Rx.plusC (fun c => isPyDigit c || c.toNat = 0xa0),
      Rx.opt (Rx.cls (· = '.')), Rx.starC isPyDigit]),
     wsS, Rx.opt parenGrp, wsS, Rx.alt (ph "сўмни") (ph "сум")]⟩,
   -- (\d{1,3}(?:\xa0\d{3})+(?:\.\d{1,3})?)\s*(?:сўмни|сумни|сум|сўм)
   ⟨true, Rx.cat [Rx.grp (Rx.cat [dRep 1 3,
      Rx.seq (Rx.cls (·.toNat = 0xa0)) (dRep 3 3),
      Rx.star (Rx.seq (Rx.cls (·.toNat = 0xa0)) (dRep 3 3)),
      Rx.opt (Rx.seq (Rx.cls (· = '.')) (dRep 1 3))]),
     wsS, Rx.altL [ph "сўмни", ph "сумни", ph "сум", ph "сўм"]]⟩]

/-- The second fallback's regex (with `re.DOTALL`, hence lazy `.` matching
newlines): `(?i)(?:ш\.|шартнома буйича ишлар киймати).*?(?:сумни|сумлик)\s+
(\d[\d\s]+?)\s*(?:\(|сум)` — the inner spaces are literal. -/
def secFbPat : CPat :=
  ⟨true, Rx.cat [Rx.alt (Rx.str (lc "ш.")) (Rx.str (lc "шартнома буйича ишлар киймати")),
    Rx.lazyStarC (fun _ => true),
    Rx.alt (ph "сумни") (ph "сумлик"), wsP,
    Rx.grp (Rx.seq (Rx.cls isPyDigit) (Rx.lazyPlusC isDigWS)), wsS,
    Rx.alt (Rx.cls (· = '(')) (ph "сум")]⟩

/-- The last fallback's regex: `(\d{3,4}[\s]+\d{3}[\s]+\d{3}[\s]+\d{3})`. -/
def largePat : CPat :=
  ⟨true, Rx.cat [Rx.grp (Rx.cat [dRep 3 4, wsP, dRep 3 3, wsP, dRep 3 3, wsP,
    dRep 3 3])]⟩

/-- Python `float(s)` for the sign-free decimal strings arising here:
`(integer part, fraction numerator, fraction scale)`; `none` when `float`
would raise. -/
def parseDec (cs : List Char) : Option (Nat × Nat × Nat) :=
  match cs.splitOn '.' with
  | [ip] => if ip ≠ [] ∧ ip.all isPyDigit then some (digitsToNat ip, 0, 1) else none
  | [ip, fp] =>
    if (ip ≠ [] ∨ fp ≠ []) ∧ ip.all isPyDigit ∧ fp.all isPyDigit then
      some (digitsToNat ip, digitsToNat fp, 10 ^ fp.length)
    else none
  | _ => none

/-- `int(round(x))` for a parsed decimal (round half to even, as Python). -/
def decRound (v : Nat × Nat × Nat) : Nat :=
  let n := v.1
  if 2 * v.2.1 > v.2.2 then n + 1
  else if 2 * v.2.1 < v.2.2 then n
  else if v.2.1 = 0 then n
  else if n % 2 = 0 then n else n + 1

/-- `re.sub(r'[\s–-]', '', s)`. -/
def cleanAmt (s : List Char) : List Char :=
  s.filter fun c => !(isPySpace c || c = '–' || c = '-')

/-- One iteration of the main amount loop: search the pattern, skip
candidates below 50 000 (`continue`), normalize to whole units, keep the
numerically largest candidate so far. -/
def amountStep (t : List Char) (cur : Option (List Char)) (p : CPat) :
    Option (List Char) :=
  match cpSearch p t with
  | none => cur
  | some m =>
    match m.2.2 with
    | none => cur
    | some g =>
      let raw := stripWS (sliceLC t g.1 g.2)
      let clean := cleanAmt raw
      let rep := clean.map fun c => if c = ',' then '.' else c
      let skipSmall : Bool :=
        match parseDec rep with
        | some v => v.1 < 50000
        | none =>
          let d := raw.filter isPyDigit
          !d.isEmpty && digitsToNat d < 50000
      if skipSmall then cur
      else
        let norm :=
          match parseDec rep with
          | some v => lc (Nat.repr (decRound v))
          | none =>
            if clean.contains '.' || clean.contains ',' then clean.takeWhile isPyDigit
            else raw.filter isPyDigit
        match cur with
        | none => some norm
        | some c0 => if digitsToNat norm > digitsToNat c0 then some norm else c0

/-- One fallback pattern: all matches (`re.findall`), each cleaned of
whitespace/NBSP/dashes, parsed, and kept when at least 100 000 and larger
than the current value. -/
def fbStep (t : List Char) (cur : Option (List Char)) (p : CPat) :
    Option (List Char) :=
  (cpFindAll p t).foldl
    (fun c m =>
      match m.2.2 with
      | none => c
      | some g =>
        let raw := sliceLC t g.1 g.2
        let clean := raw.filter fun ch =>
          !(isPySpace ch || ch = '-' || ch = '–' || ch = '—')
        let rep := clean.map fun ch => if ch = ',' then '.' else ch
        match parseDec rep with
        | some v =>
          let n := decRound v
          if 100000 ≤ n ∧ (c = none ∨ digitsToNat ((c.getD [])) < n) then
            some (lc (Nat.repr n))
          else c
        | none => c)
    cur

/-- The first fallback loop (`break` once an amount is recorded). -/
def fbLoop (t : List Char) : Option (List Char) → List CPat → Option (List Char)
  | cur, [] => cur
  | cur, p :: rest =>
    match fbStep t cur p with
    | some v => some v
    | none => fbLoop t none rest

/-- `_extract_metadata`'s amount extraction over normalized text: the main
pattern loop, then the three fallbacks, in source order. -/
def extractAmount (t : List Char) : Option (List Char) :=
  let a1 := amountPatterns.foldl (amountStep t) none
  let a2 := if a1 = none then fbLoop t none fbPatterns else a1
  let a3 :=
    if a2 = none then
      match cpSearch secFbPat t with
      | some m =>
        match m.2.2 with
        | some g =>
          let v := cleanAmt (stripWS (sliceLC t g.1 g.2))
          if 10 ≤ v.length then some v else none
        | none => none
      | none => none
    else a2
  let needLarge :=
    match a3 with
    | none => true
    | some s => digitsToNat s < 100000
  if needLarge then
    match cpSearch largePat t with
    | some m =>
      match m.2.2 with
      | some g => some (cleanAmt (sliceLC t g.1 g.2))
      | none => a3
    | none => a3
  else a3

/-- Currency detection: `'USD' in text.upper() or '$' in text`, then EUR,
default UZS. -/
def currencyOf (t : List Char) : List Char :=
  if containsSub (lc "USD") (upperLC t) || containsSub (lc "$") t then lc "USD"
  else if containsSub (lc "EUR") (upperLC t) || containsSub (lc "€") t then lc "EUR"
  else lc "UZS"

/-- The cyrillic set of `_detect_language` (Russian alphabet, both cases). -/
def isRuCyr (c : Char) : Bool :=
  (0x410 ≤ c.toNat && c.toNat ≤ 0x44F) || c = 'Ё' || c = 'ё'

/-- `russian_specific = set('ъыэё')`. -/
def isRuSpecific (c : Char) : Bool := c = 'ъ' || c = 'ы' || c = 'э' || c = 'ё'

/-- `uzbek_specific = set("ғҳқўшчђҷ")`. -/
def isUzSpecific (c : Char) : Bool :=
  c = 'ғ' || c = 'ҳ' || c = 'қ' || c = 'ў' || c = 'ш' || c = 'ч' || c = 'ђ' || c = 'ҷ'

/-- The `russian_words` list. -/
def russianWords : List (List Char) :=
  [lc "договор", lc "поставщик", lc "исполнитель", lc "заказчик",
   lc "покупатель", lc "условиях", lc "расчетов"]

/-- `\bДоговор\b` (with `re.IGNORECASE`) at position `i` of `s`. -/
def hasWordAt (w s : List Char) (i : Nat) : Bool :=
  ciIsPrefix w (s.drop i) && (i = 0 || !((charAt s (i - 1)).any isWordChar)) &&
    !((charAt s (i + w.length)).any isWordChar)

/-- `re.search(r'(?i)\bДоговор\b', text[:2000])`. -/
def hasWordDogovor (s : List Char) : Bool :=
  (List.range (s.length + 1)).any (hasWordAt (lc "договор") s)

/-- `ContractParser._detect_language`. -/
def detectLanguage (t : List Char) : List Char :=
  if hasWordDogovor (t.take 2000) then lc "ru"
  else
    let cyrCount := (t.filter isRuCyr).length
    let rusCount := (t.filter isRuSpecific).length
    let uzbInd := (t.filter isUzSpecific).length
    let total := (t.filter pyIsAlpha).length
    if total = 0 then lc "uz-latn"
    else if 2 * cyrCount > total then
      -- cyrillic_ratio > 0.5, computed exactly
      if 5 ≤ uzbInd ∧ max 1 (rusCount / 2) ≤ uzbInd then lc "uz-cyrl"
      else
        let rw := (russianWords.filter fun w => containsSub w (lowerLC t)).length
        if 5 ≤ rusCount then lc "ru"
        else if 5 ≤ rw then lc "ru"
        else if 2 ≤ rw ∧ uzbInd = 0 then lc "ru"
        else if 1 ≤ uzbInd then lc "uz-cyrl"
        else lc "uz-cyrl"
    else lc "uz-latn"

/-- The modelled metadata fields of `ContractParser.parse`. -/
structure ParseMeta where
  total_amount : Option (List Char)
  currency : List Char
  language : List Char
deriving DecidableEq, Repr

/-- The metadata half of `ContractParser.parse`. -/
def parseMeta (t : List Char) : ParseMeta :=
  let nt := pyNormalize t
  ⟨extractAmount nt, currencyOf nt, detectLanguage nt⟩

/-! ### Compliance engine (`ai_engine/compliance/__init__.py`) -/

/-- `IssueSeverity`. -/
inductive IssueSeverity where
  | critical | high | medium | low | info
deriving DecidableEq, BEq, Repr

/-- `IssueType`. -/
inductive IssueType where
  | missing_clause | invalid_clause | one_sided | unclear | conflict | illegal
  | missing_info | format | spelling | grammar | structural | invalid_document
  | other
deriving DecidableEq, BEq, Repr

/-- `ComplianceIssue`.  Fields copied from section data are texts
(`List Char`); fixed engine wording is `String`. -/
structure ComplianceIssue where
  issue_type : IssueType
  severity : IssueSeverity
  title : String
  description : String
  section_reference : List Char := []
  clause_reference : List Char := []
  text_excerpt : List Char := []
  law_name : String := ""
  law_article : String := ""
  law_text : String := ""
  suggestion : String := ""
  suggested_text : String := ""
deriving DecidableEq, Repr

/-- `LegalRule`. -/
structure LegalRule where
  rule_id : String
  title : String
  description : String
  law_name : String
  law_article : String
  applies_to : List String
  section_type : Option SectionType
  severity : IssueSeverity
  check_type : String
  keywords : List (List Char)
deriving DecidableEq, Repr

/-- The metadata fields the compliance and risk engines read
(each optional; `truthy` below models Python truthiness). -/
structure ContractMetadata where
  contract_number : Option (List Char) := none
  contract_date : Option (List Char) := none
  party_a_name : Option (List Char) := none
  party_a_inn : Option (List Char) := none
  party_b_name : Option (List Char) := none
  party_b_inn : Option (List Char) := none
  total_amount : Option (List Char) := none
deriving DecidableEq, Repr

/-- Python truthiness of an optional string (None and `""` are falsy). -/
def truthy : Option (List Char) → Bool
  | none => false
  | some s => !s.isEmpty

/-- The `.value` string of a `SectionType`. -/
def sectionTypeValue : SectionType → String
  | .header => "header" | .parties => "parties" | .subject => "subject"
  | .rights => "rights" | .obligations => "obligations" | .price => "price"
  | .delivery => "delivery" | .quality => "quality" | .warranty => "warranty"
  | .liability => "liability" | .force_majeure => "force_majeure"
  | .dispute => "dispute" | .term => "term" | .termination => "termination"
  | .confidential => "confidential" | .additional => "additional"
  | .requisites => "requisites" | .signatures => "signatures" | .other => "other"

/-- `get_section_name_uz` (lookup of the enum value in `SECTION_NAMES_UZ`,
falling back to the value itself; the dict's key is "confidentiality" while
the enum value is "confidential", so that lookup misses). -/
def sectionNameUz : SectionType → String
  | .parties => "Tomonlar"
  | .subject => "Shartnoma predmeti"
  | .price => "Narx va to'lov shartlari"
  | .term => "Shartnoma muddati"
  | .liability => "Javobgarlik"
  | .requisites => "Tomonlar rekvizitlari"
  | .delivery => "Yetkazib berish shartlari"
  | .quality => "Sifat talablari"
  | .warranty => "Kafolat"
  | .force_majeure => "Fors-major"
  | .dispute => "Nizolarni hal qilish"
  | .termination => "Shartnomani bekor qilish"
  | .rights => "Huquqlar"
  | .obligations => "Majburiyatlar"
  | .signatures => "Imzolar"
  | .confidential => "confidential"
  | .additional => "additional"
  | .header => "header"
  | .other => "Boshqa"

/-- `LegalComplianceEngine.REQUIRED_SECTIONS`, with the `.get(..., service)`
default. -/
def requiredSectionsFor : String → List SectionType
  | "service" => [.parties, .subject, .price, .term, .liability, .requisites]
  | "supply" => [.parties, .subject, .price, .delivery, .quality, .warranty,
      .liability, .requisites]
  | "work" => [.parties, .subject, .price, .term, .quality, .liability, .requisites]
  | "labor" => [.parties, .subject, .rights, .obligations, .price, .term, .liability]
  | "lease" => [.parties, .subject, .price, .term, .rights, .obligations,
      .liability, .requisites]
  | "procurement" => [.parties, .subject, .price, .delivery, .quality, .warranty,
      .liability, .force_majeure, .dispute, .requisites]
  | _ => [.parties, .subject, .price, .term, .liability, .requisites]

/-- `LEGAL_RULES` followed by the constructor's template rules (employment,
lease, supply), i.e. `self.rules` of a default-constructed engine. -/
def engineRules : List LegalRule :=
  [⟨"FK_354_1", "Shartnoma predmeti majburiy",
    "Shartnomada predmet (mavzu) aniq ko'rsatilishi shart",
    "O'zbekiston Respublikasi Fuqarolik kodeksi", "354-modda", ["all"],
    some .subject, .critical, "mandatory",
    [lc "predmet", lc "mavzu", lc "предмет"]⟩,
   ⟨"FK_355_1", "Tomonlar to'liq ko'rsatilishi shart",
    "Shartnoma tomonlarining to'liq nomi, manzili va rekvizitlari ko'rsatilishi kerak",
    "O'zbekiston Respublikasi Fuqarolik kodeksi", "355-modda", ["all"],
    some .parties, .critical, "mandatory",
    [lc "tomon", lc "buyurtmachi", lc "ijrochi", lc "заказчик", lc "исполнитель"]⟩,
   ⟨"FK_356_1", "Narx sharti",
    "Shartnomada narx yoki narxni aniqlash tartibi ko'rsatilishi kerak",
    "O'zbekiston Respublikasi Fuqarolik kodeksi", "356-modda", ["all"],
    some .price, .high, "mandatory",
    [lc "narx", lc "summa", lc "to'lov", lc "цена", lc "стоимость", lc "оплата"]⟩,
   ⟨"FK_357_1", "Shartnoma muddati",
    "Shartnomaning amal qilish muddati belgilanishi kerak",
    "O'zbekiston Respublikasi Fuqarolik kodeksi", "357-modda", ["all"],
    some .term, .high, "mandatory",
    [lc "muddat", lc "срок", lc "дата", lc "sana"]⟩,
   ⟨"FK_325_1", "Javobgarlikni cheklash",
    "Qasddan yetkazilgan zarar uchun javobgarlikni oldindan cheklash mumkin emas",
    "O'zbekiston Respublikasi Fuqarolik kodeksi", "325-modda", ["all"],
    some .liability, .critical, "prohibited",
    [lc "javobgarlikdan ozod", lc "освобождение от ответственности"]⟩,
   ⟨"FK_417_1", "Mol sifati kafolati",
    "Mol yetkazib berish shartnomalarida kafolat muddati ko'rsatilishi kerak",
    "O'zbekiston Respublikasi Fuqarolik kodeksi", "417-modda", ["supply"],
    some .warranty, .high, "mandatory",
    [lc "kafolat", lc "гарантия", lc "sifat", lc "качество"]⟩,
   ⟨"FK_333_1", "Fors-major holatlari",
    "Fors-major holatlari va ularning oqibatlari belgilanishi tavsiya etiladi",
    "O'zbekiston Respublikasi Fuqarolik kodeksi", "333-modda",
    ["supply", "work", "procurement"],
    some .force_majeure, .medium, "recommended",
    [lc "fors-major", lc "форс-мажор", lc "favqulodda"]⟩,
   ⟨"FK_327_1", "Penya miqdori",
    "Penya miqdori asosiy qarzdan oshmasligi kerak (ayrim holatlar bundan mustasno)",
    "O'zbekiston Respublikasi Fuqarolik kodeksi", "327-modda", ["all"],
    some .liability, .high, "limit",
    [lc "penya", lc "пеня", lc "jarima", lc "штраф", lc "neustoyka"]⟩,
   ⟨"DX_2021_1", "Davlat xaridi majburiy shartlari",
    "Davlat xaridlari shartnomalarida maxsus talablar bajarilishi shart",
    "Davlat xaridlari to'g'risida qonun", "25-modda", ["procurement"],
    none, .critical, "format",
    [lc "davlat xaridi", lc "государственная закупка", lc "tender"]⟩,
   ⟨"MK_72_1", "Mehnat shartnomasi majburiy shartlari",
    "Mehnat shartnomasi ish joyi, lavozim, ish haqi va ish vaqtini o'z ichiga olishi kerak",
    "O'zbekiston Respublikasi Mehnat kodeksi", "72-modda", ["labor"],
    some .subject, .critical, "mandatory",
    [lc "mehnat", lc "труд", lc "ish haqi", lc "заработная плата"]⟩,
   ⟨"FK_107_1", "Yozma shakl talabi",
    "Yuridik shaxslar orasidagi shartnomalar yozma shaklda tuzilishi shart",
    "O'zbekiston Respublikasi Fuqarolik kodeksi", "107-modda", ["all"],
    some .signatures, .critical, "format",
    [lc "imzo", lc "подпись", lc "muhr", lc "печать"]⟩,
   ⟨"FK_355_2", "Bank rekvizitlari",
    "Tomonlarning bank rekvizitlari to'liq ko'rsatilishi kerak",
    "O'zbekiston Respublikasi Fuqarolik kodeksi", "355-modda", ["all"],
    some .requisites, .high, "mandatory",
    [lc "bank", lc "hisob raqam", lc "расчетный счет", lc "р/с", lc "MFO"]⟩,
   -- template rules, appended by `_add_template_rules` in dict order
   ⟨"EMPL_001", "Mehnat sharoitlari majburiy",
    "Mehnat shartnomalarida ish vaqti, dam olish kunlari va mehnat sharoitlari aniq ko'rsatilishi shart",
    "O'zbekiston Respublikasi Mehnat kodeksi", "27-modda", ["labor"],
    some .obligations, .high, "mandatory",
    [lc "ish vaqti", lc "dam olish", lc "mehnat sharoitlari", lc "рабочее время",
     lc "отпуск"]⟩,
   ⟨"EMPL_002", "Ijtimoiy kafolatlar",
    "Xodim ijtimoiy sug'urta va boshqa kafolatlar bilan ta'minlanishi kerak",
    "O'zbekiston Respublikasi Mehnat kodeksi", "72-modda", ["labor"],
    some .rights, .high, "mandatory",
    [lc "ijtimoiy kafolat", lc "sug'urta", lc "социальные гарантии"]⟩,
   ⟨"LEASE_001", "Ko'chmas mulk ijara shartnomasi davlat ro'yxatidan o'tishi",
    "Ko'chmas mulkni ijaraga berishning shartnomasi davlat ro'yxatidan o'tkazilishi kerak",
    "O'zbekiston Respublikasi Fuqarolik kodeksi", "576-modda", ["lease"],
    none, .high, "mandatory",
    [lc "ro'yxat", lc "davlat", lc "регистрация"]⟩,
   ⟨"SUPPLY_001", "Mol sifatining kafolati",
    "Yetkazib berish shartnomalarida mol sifatining kafolati aniq ko'rsatilishi shart",
    "O'zbekiston Respublikasi Fuqarolik kodeksi", "450-modda", ["supply"],
    some .warranty, .high, "mandatory",
    -- "gарантия" is mixed-script (Latin g) in the source
    [lc "kafolat", lc "sifat", lc "gарантия", lc "качество"]⟩]

/-- `_get_applicable_rules`. -/
def applicableRules (ct : String) : List LegalRule :=
  engineRules.filter fun r => "all" ∈ r.applies_to ∨ ct ∈ r.applies_to

/-- `' '.join(s.content.lower() for s in sections)`. -/
def allTextOf (secs : List PSection) : List Char :=
  List.intercalate [' '] (secs.map fun s => lowerLC s.content)

/-- The requisites-content keyword sweep of `_check_required_sections`. -/
def reqContentKws : List (List Char) :=
  [lc "stir", lc "inn", lc "банк", lc "bank", lc "р/с", lc "мфо", lc "mfo",
   lc "расчетный счет", lc "hisob raqam"]

/-- `section_fallback_keywords` (the source's PRICE list contains
`қиймати` twice; `da’vo` carries a right single quotation mark). -/
def sectionFallbackKws : SectionType → List (List Char)
  | .subject => [lc "предмет", lc "шартнома предмети", lc "мавзу", lc "мавзуси"]
  | .price => [lc "цена договора", lc "цена", lc "стоимость работ", lc "стоимость",
      lc "оплата", lc "порядок расчетов", lc "расчетов", lc "нарх", lc "to'lov",
      lc "tulov", lc "тўлов", lc "сумма", lc "узс", lc "uzs", lc "қиймати",
      lc "қиймати"]
  | .term => [lc "срок действия", lc "срок договора", lc "срок выполнения",
      lc "сроки выполнения", lc "срок исполнения", lc "срок", lc "муддат",
      lc "амал қилади", lc "амал килади", lc "действует", lc "действует до",
      lc "to kuni"]
  | .liability => [lc "ответственность сторон", lc "материальная ответственность",
      lc "ответственность", lc "javobgarlik", lc "штраф", lc "пеня", lc "jarima"]
  | .delivery => [lc "поставка", lc "доставка", lc "yetkazib", lc "етказиб"]
  | .quality => [lc "качество", lc "сифат", lc "sifat"]
  | .warranty => [lc "гарант", lc "kafolat", lc "кафолат"]
  | .dispute => [lc "спор", lc "da’vo", lc "nizo", lc "низо"]
  | _ => []

/-- The MISSING_CLAUSE issue of `_check_required_sections`. -/
def mkMissingSection (st : SectionType) : ComplianceIssue :=
  let nm := sectionNameUz st
  { issue_type := .missing_clause, severity := .high,
    title := "Yetishmayotgan bo'lim: " ++ nm,
    description := "Shartnomada '" ++ nm ++ "' bo'limi topilmadi",
    suggestion := "'" ++ nm ++ "' bo'limini qo'shing",
    law_name := "O'zbekiston Respublikasi Fuqarolik kodeksi",
    law_article := "354-modda" }

/-- `_check_required_sections`'s `found_types` after the requisites
content sweep. -/
def reqFound1 (secs : List PSection) : List SectionType :=
  let allT := allTextOf secs
  let found0 := secs.map (·.section_type)
  if reqContentKws.any (fun kw => containsSub kw allT) &&
      !found0.contains SectionType.requisites then
    found0 ++ [SectionType.requisites]
  else found0

/-- `found_types` after the per-section fallback-keyword sweep. -/
def reqFound2 (secs : List PSection) (ct : String) : List SectionType :=
  (requiredSectionsFor ct).foldl
    (fun acc st =>
      if !acc.contains st && !(sectionFallbackKws st).isEmpty &&
          (sectionFallbackKws st).any
            (fun kw => containsSub kw (allTextOf secs)) then
        acc ++ [st]
      else acc)
    (reqFound1 secs)

/-- The issue `_check_required_sections` emits for one required type. -/
def reqIssueFor (secs : List PSection) (ct : String) (st : SectionType) :
    Option ComplianceIssue :=
  if !(reqFound2 secs ct).contains st then
    if !(sectionFallbackKws st).isEmpty &&
        (sectionFallbackKws st).any
          (fun kw => containsSub kw (allTextOf secs)) then
      none
    else some (mkMissingSection st)
  else none

/-- `_check_required_sections`: missing required sections, after the
requisites sweep and the per-section fallback-keyword leniency layers. -/
def requiredSectionIssues (secs : List PSection) (ct : String) :
    List ComplianceIssue :=
  (requiredSectionsFor ct).filterMap (reqIssueFor secs ct)

/-- `_get_section_by_type`. -/
def getSectionByType (secs : List PSection) (st : SectionType) : Option PSection :=
  secs.find? (·.section_type == st)

/-- The TERM skip keywords of `_check_rule`. -/
def termSkipKws : List (List Char) :=
  [lc "amal qiladi", lc "muddati", lc "действует", lc "срок"]

/-- `_check_rule`. -/
def checkRule (rule : LegalRule) (secs : List PSection) (meta : ContractMetadata) :
    List ComplianceIssue :=
  match rule.section_type with
  | none => []
  | some rst =>
    let nameUz := sectionNameUz rst
    let sec := getSectionByType secs rst
    if sec = none ∧ rst = SectionType.price ∧ truthy meta.total_amount then []
    else if sec = none ∧ rst = SectionType.term ∧
        termSkipKws.any (fun kw => containsSub kw (allTextOf secs)) then []
    else
      match sec with
      | none =>
        if rule.check_type = "mandatory" then
          let allT := allTextOf secs
          let kwAnywhere := rule.keywords.any fun kw => containsSub (lowerLC kw) allT
          if kwAnywhere ||
              [SectionType.requisites, SectionType.term, SectionType.price,
                SectionType.subject].contains rst then []
          else
            [{ issue_type := .missing_clause, severity := rule.severity,
               title := rule.title, description := rule.description,
               law_name := rule.law_name, law_article := rule.law_article,
               suggestion := "'" ++ nameUz ++ "' bo'limini qo'shing" }]
        else []
      | some s =>
        let contentLower := lowerLC s.content
        let foundKws := rule.keywords.filter fun kw =>
          containsSub (lowerLC kw) contentLower
        if rule.check_type = "mandatory" ∧ foundKws = [] then
          if [SectionType.subject, SectionType.parties, SectionType.term,
              SectionType.requisites, SectionType.price].contains rst then []
          else
            [{ issue_type := .missing_info, severity := rule.severity,
               title := rule.title, description := rule.description,
               section_reference := s.title,
               law_name := rule.law_name, law_article := rule.law_article,
               suggestion := "Ushbu ma'lumotlarni qo'shing: " ++
                 String.mk (List.intercalate (lc ", ") (rule.keywords.take 3)) }]
        else if rule.check_type = "prohibited" then
          rule.keywords.filterMap fun kw =>
            if containsSub (lowerLC kw) contentLower then
              let idx := (idxOfSub (lowerLC kw) contentLower).getD 0
              some { issue_type := .illegal, severity := rule.severity,
                     title := rule.title, description := rule.description,
                     section_reference := s.title,
                     text_excerpt := sliceLC s.content (idx - 50) (idx + kw.length + 50),
                     law_name := rule.law_name, law_article := rule.law_article,
                     suggestion := "Bu bandni o'chirib tashlang yoki o'zgartiring" }
            else none
        else []

/-- The `one_sided_patterns` table of `_check_balance`. -/
def oneSidedPatterns : List (List Char × String) :=
  [(lc "bir tomonlama bekor qilish", "Bir tomonlama bekor qilish huquqi"),
   (lc "односторонний отказ", "Bir tomonlama rad etish"),
   (lc "без согласия", "Rozilikisiz o'zgartirish"),
   (lc "faqat buyurtmachi", "Faqat bir tomonga berilgan huquq"),
   (lc "faqat ijrochi", "Faqat bir tomonga berilgan huquq"),
   (lc "только заказчик", "Faqat bir tomonga berilgan huquq"),
   (lc "только исполнитель", "Faqat bir tomonga berilgan huquq")]

/-- The issue `_check_balance` emits for one section and one pattern. -/
def balanceIssueFor (s : PSection) (pr : List Char × String) :
    Option ComplianceIssue :=
  let cl := lowerLC s.content
  if containsSub pr.1 cl then
    let idx := (idxOfSub pr.1 cl).getD 0
    some { issue_type := .one_sided, severity := .medium, title := pr.2,
           description := "Bu band bir tomonga ortiqcha ustunlik berishi mumkin",
           section_reference := s.title,
           text_excerpt := sliceLC s.content (idx - 30) (idx + pr.1.length + 30),
           suggestion := "Bandni ikkala tomon uchun muvozanatli qiling" }
  else none

/-- `_check_balance`. -/
def checkBalance (secs : List PSection) : List ComplianceIssue :=
  secs.flatMap fun s => oneSidedPatterns.filterMap (balanceIssueFor s)

/-- `_check_metadata`. -/
def checkMetadata (meta : ContractMetadata) (ct : String) : List ComplianceIssue :=
  (if !truthy meta.contract_date then
    [{ issue_type := .missing_info, severity := .medium,
       title := "Shartnoma sanasi ko'rsatilmagan",
       description := "Shartnoma tuzilgan sana aniqlanmadi",
       suggestion := "Shartnoma sanasini aniq ko'rsating",
       law_name := "Fuqarolik kodeksi", law_article := "107-modda" }]
   else []) ++
  (if !truthy meta.party_a_inn then
    [{ issue_type := .missing_info, severity := .medium,
       title := "1-tomon INN/STIR ko'rsatilmagan",
       description := "Birinchi tomonning identifikatsiya raqami topilmadi",
       suggestion := "Tomonning INN/STIR raqamini qo'shing" }]
   else []) ++
  (if !truthy meta.party_b_inn then
    [{ issue_type := .missing_info, severity := .medium,
       title := "2-tomon INN/STIR ko'rsatilmagan",
       description := "Ikkinchi tomonning identifikatsiya raqami topilmadi",
       suggestion := "Tomonning INN/STIR raqamini qo'shing" }]
   else []) ++
  (if ct ∈ ["supply", "service", "work", "procurement"] ∧
      !truthy meta.total_amount then
    [{ issue_type := .missing_info, severity := .medium,
       title := "Shartnoma summasi ko'rsatilmagan",
       description := "Shartnomaning umumiy summasi aniqlanmadi",
       suggestion := "Shartnoma summasini aniq ko'rsating",
       law_name := "Fuqarolik kodeksi", law_article := "356-modda" }]
   else [])

/-- One risky-clause category of `detect_risky_clauses`. -/
structure RiskyCat where
  pats : List CPat
  severity : IssueSeverity
  title : String
  description : String

/-- The `risky_patterns` table, in source (insertion) order. -/
def riskyCats : List RiskyCat :=
  [{ pats :=
      [ -- cheksiz\s+javobgarlik
       ⟨true, ph "cheksiz javobgarlik"⟩,
       -- неограниченная\s+ответственность
       ⟨true, ph "неограниченная ответственность"⟩,
       -- javobgarlikdan\s+to\'liq\s+ozod
       ⟨true, ph "javobgarlikdan to'liq ozod"⟩,
       -- полностью\s+освобождается\s+от\s+ответственности
       ⟨true, ph "полностью освобождается от ответственности"⟩],
     severity := .high,
     title := "Noaniq javobgarlik shartlari",
     description := "Javobgarlik shartlari aniqlanishi tavsiya etiladi" },
   { pats := [⟨true, ph "qonunga qarshi"⟩, ⟨true, ph "противозаконн"⟩,
       ⟨true, ph "запрещен"⟩],
     severity := .critical,
     title := "Qonunga zid shart",
     description := "Shartnomada qonunga zid shart topildi" },
   { pats :=
      [ -- penya\s+([5-9]|[1-9]\d)%
       ⟨true, Rx.cat [ph "penya", wsP,
         Rx.grp (Rx.alt (Rx.cls fun c => '5' ≤ c && c ≤ '9')
           (Rx.seq (Rx.cls fun c => '1' ≤ c && c ≤ '9') (Rx.cls isPyDigit))),
         Rx.cls (· = '%')]⟩,
       ⟨true, Rx.cat [ph "пеня", wsP,
         Rx.grp (Rx.alt (Rx.cls fun c => '5' ≤ c && c ≤ '9')
           (Rx.seq (Rx.cls fun c => '1' ≤ c && c ≤ '9') (Rx.cls isPyDigit))),
         Rx.cls (· = '%')]⟩],
     severity := .medium,
     title := "Yuqori penya miqdori",
     description := "Penya miqdori yuqori, qonun talablariga mos ekanligini tekshiring" }]

/-- The issue one risky category emits for one section (it does not depend
on which pattern of the category matched). -/
def mkRiskyIssue (cat : RiskyCat) (s : PSection) : ComplianceIssue :=
  { issue_type := .invalid_clause, severity := cat.severity,
    title := cat.title, description := cat.description,
    section_reference := lc (sectionTypeValue s.section_type),
    clause_reference := s.title,
    text_excerpt := s.content.take 200,
    law_name := "O'zbekiston Respublikasi Fuqarolik kodeksi",
    law_article := "Umumiy talablar",
    suggestion := "Shartnomani yurist bilan ko'rib chiqing" }

/-- The per-section, per-category body of `detect_risky_clauses`: the inner
pattern loop `break`s after the first matching pattern, so each category
yields at most one issue per section. -/
def riskyIssuesForSection (s : PSection) : List ComplianceIssue :=
  riskyCats.filterMap fun cat =>
    if cat.pats.any (fun p => (cpSearch p (lowerLC s.content)).isSome) then
      some (mkRiskyIssue cat s)
    else none

/-- `detect_risky_clauses`. -/
def detectRiskyClauses (secs : List PSection) (_ct : String) :
    List ComplianceIssue :=
  secs.flatMap riskyIssuesForSection

/-- `LegalComplianceEngine.check_compliance` (default-constructed engine):
the five passes concatenated in order. -/
def checkCompliance (secs : List PSection) (meta : ContractMetadata)
    (ct : String) : List ComplianceIssue :=
  requiredSectionIssues secs ct ++
    (applicableRules ct).flatMap (fun r => checkRule r secs meta) ++
    checkBalance secs ++
    checkMetadata meta ct ++
    detectRiskyClauses secs ct

/-! ### Risk scoring engine (`ai_engine/risk_scoring/__init__.py`)

The scores are integers throughout.  The two float computations are
modelled exactly: `int(deduction * weight)` with `deduction` in
{15, 10, 5, 2, 0} and `weight` in {1.0, 0.8, 0.7, 0.5, 0.4, 0.3} equals
`deduction * tenths / 10` in integers for every such pair (the double
products round to the exact decimal values, and `int(4.5) = 4` matches
floor), and `int((found / total) * 100)` is modelled as
`found * 100 / total`; the only claim over these is a bounds claim, which
holds for either reading.  `RiskScore`'s `risk_level`, `breakdown`,
`recommendations` and `risky_clauses` fields are not referenced by any
claim and are not modelled. -/

/-- `ClauseAnalysis` (the external/LLM clause judgment). -/
structure ClauseAnalysis where
  clause_text : List Char := []
  compliance : String
  risks : List (List Char)
  recommendations : List (List Char) := []
  severity : String
  suggested_text : List Char := []
deriving DecidableEq, Repr

/-- `clause_analyses`: a dict from section name to analysis, as an ordered
association list. -/
abbrev ClauseAnalyses := List (List Char × ClauseAnalysis)

/-- `SEVERITY_DEDUCTIONS` (every severity is a key, so the `.get` default 3
is unreachable). -/
def sevDeduct : IssueSeverity → Nat
  | .critical => 15
  | .high => 10
  | .medium => 5
  | .low => 2
  | .info => 0

/-- `ISSUE_TYPE_WEIGHTS` in tenths, with the `.get` default 1.0 for the
types absent from the dict (STRUCTURAL, INVALID_DOCUMENT). -/
def typeWeightTenths : IssueType → Nat
  | .illegal => 15
  | .missing_clause => 12
  | .invalid_clause => 13
  | .one_sided => 11
  | .missing_info => 10
  | .unclear => 8
  | .format => 7
  | .conflict => 12
  | .spelling => 3
  | .grammar => 4
  | .other => 5
  | .structural => 10
  | .invalid_document => 10

/-- `int(deduction * min(weight, 1.0))` for one issue. -/
def issueDeduction (i : ComplianceIssue) : Nat :=
  sevDeduct i.severity * min (typeWeightTenths i.issue_type) 10 / 10

/-- `_calculate_compliance_score`: 100 minus the capped total deduction,
floored at 10 (`if clause_analyses:` is false for both `None` and `{}`). -/
def complianceScore (issues : List ComplianceIssue) (ca : Option ClauseAnalyses) :
    Nat :=
  let td0 := (issues.map issueDeduction).sum
  let l := ca.getD []
  let td :=
    if l.isEmpty then td0
    else
      td0 + 20 * (l.filter fun p => p.2.compliance = "mos emas").length +
        12 * (l.filter fun p => p.2.severity = "critical" ∨ p.2.severity = "high").length
  max 10 (min 100 (100 - min td 80))

/-- `SECTION_WEIGHTS` with the `.get` default 5. -/
def sectionWeight : SectionType → Nat
  | .parties => 10 | .subject => 10 | .price => 10
  | .term => 8 | .obligations => 8 | .liability => 8 | .requisites => 8
  | .warranty => 6 | .delivery => 6 | .quality => 6
  | .force_majeure => 4 | .dispute => 4 | .rights => 4
  | .termination => 3
  | .confidential => 2 | .additional => 2
  | _ => 5

/-- `_calculate_completeness_score`. -/
def completenessScore (secs : List PSection) (ct : String) : Nat :=
  let required := requiredSectionsFor ct
  if required.isEmpty then 100
  else
    let foundTypes := secs.map (·.section_type)
    let total := (required.map sectionWeight).sum
    let found := ((required.filter fun s => foundTypes.contains s).map sectionWeight).sum
    if total = 0 then 100
    else max 0 (min 100 (found * 100 / total))

/-- `unclear_patterns` (the source lists "taxminan" twice; both entries
deduct). -/
def unclearPatterns : List (List Char) :=
  [lc "va hokazo", lc "va boshqalar", lc "и т.д.", lc "и прочее",
   lc "taxminan", lc "примерно", lc "taxminan"]

/-- The total deduction of `_calculate_clarity_score`. -/
def clarityPenalty (secs : List PSection) (meta : ContractMetadata) : Nat :=
  (if !truthy meta.contract_number then 5 else 0) +
  (if !truthy meta.contract_date then 10 else 0) +
  (if !truthy meta.party_a_name && !truthy meta.party_a_inn then 10 else 0) +
  (if !truthy meta.party_b_name && !truthy meta.party_b_inn then 10 else 0) +
  (secs.map fun s =>
    (if s.content.length < 50 then 3 else 0) +
      2 * (unclearPatterns.filter fun p => containsSub p (lowerLC s.content)).length).sum

/-- `_calculate_clarity_score` (`max(0, min(100, 100 - penalty))`). -/
def clarityScore (secs : List PSection) (meta : ContractMetadata) : Nat :=
  max 0 (min 100 (100 - clarityPenalty secs meta))

/-- The LLM one-sidedness keywords of `_calculate_balance_score`. -/
def oneSidedRiskKws : List (List Char) :=
  [lc "bir tomonli", lc "bir tomoni", lc "asymmetric", lc "nomnusbat",
   lc "nobarobar", lc "tengsizlik", lc "notengi", lc "unfair"]

/-- The total deduction of `_calculate_balance_score`. -/
def balancePenalty (issues : List ComplianceIssue) (ca : Option ClauseAnalyses) :
    Nat :=
  15 * (issues.filter fun i => i.issue_type = IssueType.one_sided).length +
    (let l := ca.getD []
     if l.isEmpty then 0
     else
       12 * (l.filter fun p =>
         oneSidedRiskKws.any fun kw =>
           containsSub kw (lowerLC (List.intercalate [' '] p.2.risks))).length)

/-- `_calculate_balance_score`. -/
def balanceScore (issues : List ComplianceIssue) (ca : Option ClauseAnalyses) :
    Nat :=
  max 0 (min 100 (100 - balancePenalty issues ca))

/-- `_calculate_overall_score`: the 0.40 / 0.25 / 0.20 / 0.15 weighted sum,
truncated to an integer. -/
def overallScore (c p l b : Nat) : Nat :=
  (40 * c + 25 * p + 20 * l + 15 * b) / 100

/-- The scoring fields of `RiskScore`. -/
structure RiskScore where
  overall_score : Nat
  compliance_score : Nat
  completeness_score : Nat
  clarity_score : Nat
  balance_score : Nat
  enhanced_by_llm : Bool
deriving DecidableEq, Repr

/-- `RiskScoringEngine.calculate_score` (its numeric result). -/
def calculateScore (secs : List PSection) (meta : ContractMetadata)
    (issues : List ComplianceIssue) (ct : String) (ca : Option ClauseAnalyses) :
    RiskScore :=
  let c := complianceScore issues ca
  let p := completenessScore secs ct
  let l := clarityScore secs meta
  let b := balanceScore issues ca
  { overall_score := overallScore c p l b,
    compliance_score := c, completeness_score := p,
    clarity_score := l, balance_score := b,
    enhanced_by_llm := !(ca.getD []).isEmpty }

/-! ### Concrete inputs and predicates used by the claim theorems -/

/-- Scenario A's input text. -/
def scenarioA : List Char :=
  lc "1. ШАРТНОМА ПРЕДМЕТИ\nХизмат кўрсатиш.\n2. НАРХ\n1 000 000 сум."

/-- Scenario E's amount phrase, as a document of its own. -/
def scenarioE : List Char := lc "5 600 000 000.00 сумни"

/-- An input on which normalization is not idempotent: the first pass moves
the heading "1. П" to a new line, and the second pass, seeing the space
before that newline, inserts another one. -/
def nonIdemInput : List Char := lc "a 1. П"

/-- A SUBJECT-headed document whose body is exactly the Uzbek Cyrillic
phrase claimed to trigger a ONE_SIDED issue. -/
def cyrPhraseDoc : List Char := lc "ПРЕДМЕТ ДОГОВОРА\nбир томонлама бекор қилиш"

/-- The Uzbek Cyrillic unilateral-termination phrase of claim C2. -/
def cyrOneSidedPhrase : List Char := lc "бир томонлама бекор қилиш"

/-- The Latin-script phrase that `_check_balance` actually lists. -/
def latinOneSidedPhrase : List Char := lc "bir tomonlama bekor qilish"

/-- A compliance issue "referring to the PRICE section": a MISSING_CLAUSE
whose title is either the required-section pass's PRICE title or the PRICE
rule FK_356_1's title (the only two PRICE-referring MISSING_CLAUSE issues
the engine can construct). -/
def isPriceMissingIssue (i : ComplianceIssue) : Bool :=
  i.issue_type == IssueType.missing_clause &&
    (i.title == "Yetishmayotgan bo'lim: Narx va to'lov shartlari" ||
      i.title == "Narx sharti")

/-- A two-heading document used to witness the section-ordering invariant. -/
def orderedDoc : List Char := lc "ПРЕДМЕТ ДОГОВОРА\nтекст\nОТВЕТСТВЕННОСТЬ\nещё"

/-- A liability section whose content is the unlimited-liability phrase
(used twice to refute the per-document risky-clause bound). -/
def riskySection (ttl : String) : PSection :=
  { section_type := SectionType.liability, title := lc ttl, number := [],
    content := lc "cheksiz javobgarlik", start_pos := 0, end_pos := 0 }

/-- A section holding the Latin one-sided phrase (witness input for the
amended balance claim). -/
def latinPhraseSection : PSection :=
  { section_type := SectionType.other, title := lc "x", number := [],
    content := lc "bir tomonlama bekor qilish mumkin", start_pos := 0, end_pos := 0 }

instance : LawfulBEq SectionType where
  eq_of_beq := by intro a b h; cases a <;> cases b <;> first | rfl | exact Bool.noConfusion h
  rfl := by intro a; cases a <;> rfl

instance : LawfulBEq IssueType where
  eq_of_beq := by intro a b h; cases a <;> cases b <;> first | rfl | exact Bool.noConfusion h
  rfl := by intro a; cases a <;> rfl

/-- A concrete CRITICAL issue (witness input for the monotonicity claim). -/
def c8Extra : ComplianceIssue :=
  { issue_type := IssueType.illegal, severity := IssueSeverity.critical,
    title := "t", description := "d" }

/-! ## Theorems -/

set_option maxRecDepth 400000

/-- Scenario A parses to a single SUBJECT section: the heading "2. НАРХ"
matches no PRICE pattern (those require e.g. "НАРХ ВА ТЎЛОВ" or Latin
"NARX..."), so the price text is folded into the SUBJECT section's
content. -/
theorem scenarioA_sections_val :
    parseSections scenarioA =
      [{ section_type := SectionType.subject,
         title := lc "1.\nШАРТНОМА ПРЕДМЕТИ", number := lc "1",
         content := lc "Хизмат кўрсатиш.\n\n2. НАРХ\n1 000 000 сум.",
         start_pos := 0, end_pos := 61 }] := by decide

/-- Scenario A's extracted metadata. -/
theorem scenarioA_meta_val :
    parseMeta scenarioA = ⟨some (lc "1000000"), lc "UZS", lc "uz-cyrl"⟩ := by decide

/-- C1 (amended): on Scenario A's input with contract_type "service",
`ContractParser.parse` returns exactly one section, of type SUBJECT — not
two — while the metadata satisfies currency = "UZS" and
total_amount = "1000000" as claimed. -/
theorem c1_scenarioA_amended :
    (parseSections scenarioA).map (fun s => s.section_type) = [SectionType.subject] ∧
    (parseMeta scenarioA).currency = lc "UZS" ∧
    (parseMeta scenarioA).total_amount = some (lc "1000000") := by
  rw [scenarioA_sections_val, scenarioA_meta_val]
  exact ⟨rfl, rfl, rfl⟩

/-- C1 counterexample: the parse result of Scenario A is not the claimed
two sections [SUBJECT, PRICE]. -/
theorem c1_scenarioA_counterexample :
    (parseSections scenarioA).map (fun s => s.section_type) ≠
      [SectionType.subject, SectionType.price] := by
  rw [scenarioA_sections_val]
  decide

/-- C3 counterexample: `_normalize_text` is not idempotent — on "a 1. П"
the second pass inserts a second newline before the heading. -/
theorem c3_normalize_not_idempotent :
    pyNormalize (pyNormalize nonIdemInput) ≠ pyNormalize nonIdemInput := by decide

/-- C4: evaluating the parser at the failing input "5 600 000 000.00
сумни": `total_amount` becomes "5600000" — the first amount pattern
`\d{1,3}(\s\d{3}){2}` captures only the prefix "5 600 000" of the grouped
figure, and the NBSP fallback written for this very amount never runs once
a value is set — not the claimed "5600000000". -/
theorem c4_scenarioE_amount :
    (parseMeta scenarioE).total_amount = some (lc "5600000") := by decide

/-- C2 counterexample: a parse result whose single section's content is
exactly "бир томонлама бекор қилиш", on which `check_compliance` emits no
ONE_SIDED issue — the balance pattern list carries the phrase only in
Latin script. -/
theorem c2_counterexample :
    (∃ s ∈ parseSections cyrPhraseDoc,
        containsSub cyrOneSidedPhrase s.content = true) ∧
    (checkCompliance (parseSections cyrPhraseDoc) {} "service").all
      (fun i => !(i.issue_type == IssueType.one_sided)) = true := by
  constructor
  · decide
  · decide

/-- C5 counterexample: two sections each containing "cheksiz javobgarlik"
produce two unlimited-liability issues in one document — the first-match
cut-off is per section, not per document. -/
theorem c5_counterexample :
    ((detectRiskyClauses [riskySection "a", riskySection "b"] "service").filter
      (fun i => i.title == "Noaniq javobgarlik shartlari")).length = 2 := by decide

/-- A `max 0 (min 100 _)` clamp stays at most 100. -/
theorem clamp100_le (x : Nat) : max 0 (min 100 x) ≤ 100 := by omega

/-- The compliance clamp stays in `[10, 100]`. -/
theorem clampCompliance (x : Nat) : 10 ≤ max 10 (min 100 x) ∧ max 10 (min 100 x) ≤ 100 := by
  omega

/-- C7: for every input to `calculate_score`, the overall score lies in
[0, 100], the compliance score in [10, 100], and the completeness, clarity
and balance scores in [0, 100] (the lower bounds 0 hold by the scores
being naturals, as in the code after its `max(0, ...)` clamps). -/
theorem c7_score_bounds (secs : List PSection) (meta : ContractMetadata)
    (issues : List ComplianceIssue) (ct : String) (ca : Option ClauseAnalyses) :
    (calculateScore secs meta issues ct ca).overall_score ≤ 100 ∧
    10 ≤ (calculateScore secs meta issues ct ca).compliance_score ∧
    (calculateScore secs meta issues ct ca).compliance_score ≤ 100 ∧
    (calculateScore secs meta issues ct ca).completeness_score ≤ 100 ∧
    (calculateScore secs meta issues ct ca).clarity_score ≤ 100 ∧
    (calculateScore secs meta issues ct ca).balance_score ≤ 100 := by
  have hc : 10 ≤ complianceScore issues ca ∧ complianceScore issues ca ≤ 100 := by
    unfold complianceScore
    exact clampCompliance _
  have hp : completenessScore secs ct ≤ 100 := by
    unfold completenessScore
    dsimp only
    split
    · omega
    · split
      · omega
      · exact clamp100_le _
  have hl : clarityScore secs meta ≤ 100 := clamp100_le _
  have hb : balanceScore issues ca ≤ 100 := clamp100_le _
  refine ⟨?_, hc.1, hc.2, hp, hl, hb⟩
  show overallScore (complianceScore issues ca) (completenessScore secs ct)
    (clarityScore secs meta) (balanceScore issues ca) ≤ 100
  unfold overallScore
  have : 40 * complianceScore issues ca + 25 * completenessScore secs ct +
      20 * clarityScore secs meta + 15 * balanceScore issues ca ≤ 10000 := by
    omega
  omega

/-- C8: appending one CRITICAL issue to the issue list never increases the
compliance score — the new issue's deduction is nonnegative, the deduction
cap and the clamps are monotone. -/
theorem c8_compliance_monotone (issues : List ComplianceIssue)
    (extra : ComplianceIssue) (ca : Option ClauseAnalyses)
    (hsev : extra.severity = IssueSeverity.critical) :
    complianceScore (issues ++ [extra]) ca ≤ complianceScore issues ca := by
  unfold complianceScore
  dsimp only
  simp only [List.map_append, List.map_cons, List.map_nil, List.sum_append,
    List.sum_cons, List.sum_nil]
  cases hca : (ca.getD []).isEmpty <;>
    simp only [hca, Bool.false_eq_true, if_true, if_false] <;> omega

/-- C8 witness: the monotonicity instance at a concrete CRITICAL issue. -/
theorem c8_witness :
    complianceScore ([] ++ [c8Extra]) none ≤ complianceScore [] none :=
  c8_compliance_monotone [] c8Extra none rfl

/-- `_detect_language` only ever returns "ru", "uz-cyrl" or "uz-latn". -/
theorem detectLanguage_mem (s : List Char) :
    detectLanguage s = lc "ru" ∨ detectLanguage s = lc "uz-cyrl" ∨
      detectLanguage s = lc "uz-latn" := by
  unfold detectLanguage
  dsimp only
  split
  · exact Or.inl rfl
  · split
    · exact Or.inr (Or.inr rfl)
    · split
      · split
        · exact Or.inr (Or.inl rfl)
        · split
          · exact Or.inl rfl
          · split
            · exact Or.inl rfl
            · split
              · exact Or.inl rfl
              · split
                · exact Or.inr (Or.inl rfl)
                · exact Or.inr (Or.inl rfl)
      · exact Or.inr (Or.inr rfl)

/-- C10: after every parse, `currency` is exactly one of "USD", "EUR",
"UZS", chosen in that priority order (USD iff the USD signal, EUR iff no
USD signal but the EUR signal, else UZS), and `language` is exactly one of
"ru", "uz-cyrl", "uz-latn" — in particular "mixed" is never produced and
neither field is absent. -/
theorem c10_currency_language (t : List Char) :
    ((parseMeta t).currency = lc "USD" ∨ (parseMeta t).currency = lc "EUR" ∨
      (parseMeta t).currency = lc "UZS") ∧
    ((parseMeta t).currency = lc "USD" ↔
      (containsSub (lc "USD") (upperLC (pyNormalize t)) ||
        containsSub (lc "$") (pyNormalize t)) = true) ∧
    ((parseMeta t).currency = lc "EUR" ↔
      ((containsSub (lc "USD") (upperLC (pyNormalize t)) ||
        containsSub (lc "$") (pyNormalize t)) = false ∧
       (containsSub (lc "EUR") (upperLC (pyNormalize t)) ||
        containsSub (lc "€") (pyNormalize t)) = true)) ∧
    ((parseMeta t).language = lc "ru" ∨ (parseMeta t).language = lc "uz-cyrl" ∨
      (parseMeta t).language = lc "uz-latn") := by
  have hcur : (parseMeta t).currency = currencyOf (pyNormalize t) := rfl
  have hlang : (parseMeta t).language = detectLanguage (pyNormalize t) := rfl
  rw [hcur, hlang]
  unfold currencyOf
  set u := (containsSub (lc "USD") (upperLC (pyNormalize t)) ||
    containsSub (lc "$") (pyNormalize t)) with hu
  set e := (containsSub (lc "EUR") (upperLC (pyNormalize t)) ||
    containsSub (lc "€") (pyNormalize t)) with he
  by_cases hu1 : u = true
  · rw [if_pos hu1]
    refine ⟨Or.inl rfl, ⟨fun _ => hu1, fun _ => rfl⟩, ⟨?_, ?_⟩,
      detectLanguage_mem _⟩
    · intro hx
      exact absurd hx (by decide)
    · rintro ⟨huf, -⟩
      rw [hu1] at huf
      cases huf
  · rw [if_neg hu1]
    have hu0 : u = false := by
      cases hb : u
      · rfl
      · exact absurd hb hu1
    by_cases he1 : e = true
    · rw [if_pos he1]
      refine ⟨Or.inr (Or.inl rfl), ⟨?_, ?_⟩, ⟨fun _ => ⟨hu0, he1⟩, fun _ => rfl⟩,
        detectLanguage_mem _⟩
      · intro hx
        exact absurd hx (by decide)
      · intro hx
        exact absurd hx hu1
    · rw [if_neg he1]
      refine ⟨Or.inr (Or.inr rfl), ⟨?_, ?_⟩, ⟨?_, ?_⟩, detectLanguage_mem _⟩
      · intro hx
        exact absurd hx (by decide)
      · intro hx
        exact absurd hx hu1
      · intro hx
        exact absurd hx (by decide)
      · rintro ⟨-, hx⟩
        exact absurd hx he1

/-- Every issue `_check_balance` can emit is of type ONE_SIDED. -/
theorem balanceIssueFor_shape (s : PSection) (pr : List Char × String)
    (b : ComplianceIssue) (hb : balanceIssueFor s pr = some b) :
    b.issue_type = IssueType.one_sided := by
  unfold balanceIssueFor at hb
  dsimp only at hb
  split at hb
  · injection hb with hb
    rw [← hb]
  · exact Option.noConfusion hb

/-- C2 (amended): the one-sided pattern list holds the Latin-script phrase
"bir tomonlama bekor qilish", not the Cyrillic spelling; whenever some
section's lowercased content contains the Latin phrase, `check_compliance`
returns at least one issue of type ONE_SIDED. -/
theorem c2_amended (secs : List PSection) (meta : ContractMetadata)
    (ct : String) (s : PSection) (hs : s ∈ secs)
    (hc : containsSub latinOneSidedPhrase (lowerLC s.content) = true) :
    ∃ i ∈ checkCompliance secs meta ct, i.issue_type = IssueType.one_sided := by
  have hsome : (balanceIssueFor s
      (latinOneSidedPhrase, "Bir tomonlama bekor qilish huquqi")).isSome = true := by
    unfold balanceIssueFor
    dsimp only
    rw [if_pos hc]
    rfl
  obtain ⟨b, hb⟩ := Option.isSome_iff_exists.mp hsome
  refine ⟨b, ?_, balanceIssueFor_shape s _ b hb⟩
  have hmemBal : b ∈ checkBalance secs := by
    unfold checkBalance
    refine List.mem_flatMap.mpr ⟨s, hs, ?_⟩
    refine List.mem_filterMap.mpr
      ⟨(latinOneSidedPhrase, "Bir tomonlama bekor qilish huquqi"), ?_, hb⟩
    exact List.mem_cons_self _ _
  unfold checkCompliance
  exact List.mem_append.mpr (Or.inl (List.mem_append.mpr (Or.inl
    (List.mem_append.mpr (Or.inr hmemBal)))))

/-- C2 witness: a single section containing the Latin phrase does produce a
ONE_SIDED issue. -/
theorem c2_witness :
    ∃ i ∈ checkCompliance [latinPhraseSection] {} "service",
      i.issue_type = IssueType.one_sided :=
  c2_amended [latinPhraseSection] {} "service" latinPhraseSection
    (List.mem_cons_self _ _) (by decide)

/-- A `filterMap` whose function only ever returns `f a` is a sublist of the
corresponding `map`. -/
theorem filterMap_shape_sublist {α β : Type} (g : α → Option β) (f : α → β)
    (hg : ∀ a b, g a = some b → b = f a) :
    ∀ l : List α, (l.filterMap g).Sublist (l.map f) := by
  intro l
  induction l with
  | nil => simp
  | cons a t ih =>
    rw [List.filterMap_cons, List.map_cons]
    cases hga : g a with
    | none => exact ih.cons _
    | some b => rw [hg a b hga]; exact ih.cons₂ _

/-- C5 (amended): `detect_risky_clauses` bounds each category at one issue
per SECTION, not per document (the `break` only leaves the inner pattern
loop); every emitted issue is an INVALID_CLAUSE carrying its category's
fixed severity — HIGH for unlimited liability, CRITICAL for the illegal
provision, MEDIUM for the high penalty rate — and, per section, the output
holds at most one issue per category (it is a sublist of the
one-issue-per-category list). -/
theorem c5_amended (secs : List PSection) (ct : String) :
    (∀ i ∈ detectRiskyClauses secs ct,
      i.issue_type = IssueType.invalid_clause ∧
      ((i.title = "Noaniq javobgarlik shartlari" ∧
          i.severity = IssueSeverity.high) ∨
        (i.title = "Qonunga zid shart" ∧ i.severity = IssueSeverity.critical) ∨
        (i.title = "Yuqori penya miqdori" ∧
          i.severity = IssueSeverity.medium))) ∧
    ∀ s ∈ secs, (riskyIssuesForSection s).Sublist
      (riskyCats.map fun cat => mkRiskyIssue cat s) := by
  constructor
  · intro i hi
    obtain ⟨s, hs, hi⟩ := List.mem_flatMap.mp hi
    unfold riskyIssuesForSection at hi
    obtain ⟨cat, hcat, heq⟩ := List.mem_filterMap.mp hi
    have hib : i = mkRiskyIssue cat s := by
      split at heq
      · injection heq with h
        exact h.symm
      · exact Option.noConfusion heq
    subst hib
    simp only [riskyCats, List.mem_cons, List.not_mem_nil, or_false] at hcat
    rcases hcat with rfl | rfl | rfl
    · exact ⟨rfl, Or.inl ⟨rfl, rfl⟩⟩
    · exact ⟨rfl, Or.inr (Or.inl ⟨rfl, rfl⟩)⟩
    · exact ⟨rfl, Or.inr (Or.inr ⟨rfl, rfl⟩)⟩
  · intro s hs
    unfold riskyIssuesForSection
    refine filterMap_shape_sublist _ _ ?_ riskyCats
    intro cat b hb
    split at hb
    · injection hb with h
      exact h.symm
    · exact Option.noConfusion hb

/-- C5 witness: the per-section sublist bound at a concrete risky section. -/
theorem c5_witness :
    (riskyIssuesForSection (riskySection "s1")).Sublist
      (riskyCats.map fun cat => mkRiskyIssue cat (riskySection "s1")) :=
  (c5_amended [riskySection "s1"] "service").2 (riskySection "s1")
    (List.mem_cons_self _ _)

/-- Every issue `_check_rule` emits carries the rule's title, and a
MISSING_CLAUSE can only arise for a rule whose section type is outside the
high-leniency set `{requisites, term, price, subject}`. -/
theorem checkRule_shape (r : LegalRule) (secs : List PSection)
    (meta : ContractMetadata) (i : ComplianceIssue)
    (hi : i ∈ checkRule r secs meta) :
    i.title = r.title ∧
      (i.issue_type = IssueType.missing_clause →
        ∀ rst2, r.section_type = some rst2 →
          [SectionType.requisites, SectionType.term, SectionType.price,
            SectionType.subject].contains rst2 = false) := by
  unfold checkRule at hi
  split at hi
  · exact absurd hi (List.not_mem_nil i)
  rename_i rst heq
  dsimp only at hi
  split at hi
  · exact absurd hi (List.not_mem_nil i)
  split at hi
  · exact absurd hi (List.not_mem_nil i)
  split at hi
  · -- no section of this type is present
    split at hi
    · split at hi
      · exact absurd hi (List.not_mem_nil i)
      · rename_i hcond
        simp only [List.mem_singleton] at hi
        subst hi
        refine ⟨rfl, fun _ rst2 hrst2 => ?_⟩
        rw [heq] at hrst2
        injection hrst2 with h2
        rw [← h2]
        cases h3 : [SectionType.requisites, SectionType.term, SectionType.price,
            SectionType.subject].contains rst with
        | false => rfl
        | true => exact absurd (by rw [h3]; exact Bool.or_true _) hcond
    · exact absurd hi (List.not_mem_nil i)
  · -- a section of this type is present
    split at hi
    · split at hi
      · exact absurd hi (List.not_mem_nil i)
      · simp only [List.mem_singleton] at hi
        subst hi
        exact ⟨rfl, fun h => IssueType.noConfusion h⟩
    · split at hi
      · obtain ⟨kw, hkwm, hkweq⟩ := List.mem_filterMap.mp hi
        split at hkweq
        · injection hkweq with h
          rw [← h]
          exact ⟨rfl, fun hty => IssueType.noConfusion hty⟩
        · exact Option.noConfusion hkweq
      · exact absurd hi (List.not_mem_nil i)

/-- Membership in a conditional-append fold comes from the initial list or
from an element whose guard condition held. -/
theorem mem_foldl_addIf {α : Type} (f : List α → α → Bool) (g : α → Bool)
    (hfg : ∀ acc x, f acc x = true → g x = true) :
    ∀ (l init : List α) (a : α),
      a ∈ l.foldl (fun acc x => if f acc x then acc ++ [x] else acc) init →
      a ∈ init ∨ g a = true := by
  intro l
  induction l with
  | nil => exact fun init a h => Or.inl h
  | cons x t ih =>
    intro init a h
    rw [List.foldl_cons] at h
    rcases ih _ a h with hmem | hc
    · by_cases hfx : f init x = true
      · rw [if_pos hfx] at hmem
        rcases List.mem_append.mp hmem with h1 | h1
        · exact Or.inl h1
        · have h2 := List.mem_singleton.mp h1
          subst h2
          exact Or.inr (hfg init a hfx)
      · rw [if_neg hfx] at hmem
        exact Or.inl hmem
    · exact Or.inr hc

/-- `_check_required_sections` only ever emits the per-type MISSING_CLAUSE
issue. -/
theorem reqIssueFor_shape (secs : List PSection) (ct : String) :
    ∀ (st : SectionType) (b : ComplianceIssue),
      reqIssueFor secs ct st = some b → b = mkMissingSection st := by
  intro st b hb
  unfold reqIssueFor at hb
  split at hb
  · split at hb
    · exact Option.noConfusion hb
    · injection hb with h
      exact h.symm
  · exact Option.noConfusion hb

/-- Every issue `_check_metadata` emits is a MISSING_INFO. -/
theorem checkMetadata_type (meta : ContractMetadata) (ct : String)
    (i : ComplianceIssue) (hi : i ∈ checkMetadata meta ct) :
    i.issue_type = IssueType.missing_info := by
  unfold checkMetadata at hi
  rcases List.mem_append.mp hi with h | h
  · rcases List.mem_append.mp h with h | h
    · rcases List.mem_append.mp h with h | h
      · split at h
        · simp only [List.mem_singleton] at h; subst h; rfl
        · exact absurd h (List.not_mem_nil i)
      · split at h
        · simp only [List.mem_singleton] at h; subst h; rfl
        · exact absurd h (List.not_mem_nil i)
    · split at h
      · simp only [List.mem_singleton] at h; subst h; rfl
      · exact absurd h (List.not_mem_nil i)
  · split at h
    · simp only [List.mem_singleton] at h; subst h; rfl
    · exact absurd h (List.not_mem_nil i)

/-- Every issue `detect_risky_clauses` emits is an INVALID_CLAUSE. -/
theorem detectRisky_type (secs : List PSection) (ct : String)
    (i : ComplianceIssue) (hi : i ∈ detectRiskyClauses secs ct) :
    i.issue_type = IssueType.invalid_clause := by
  obtain ⟨s, hs, hi⟩ := List.mem_flatMap.mp hi
  unfold riskyIssuesForSection at hi
  obtain ⟨cat, hcat, heq⟩ := List.mem_filterMap.mp hi
  split at heq
  · injection heq with h
    rw [← h]
    rfl
  · exact Option.noConfusion heq

/-- C9: for a "labor" contract with no PRICE section, no extracted total
amount and no PRICE fallback keyword anywhere in the section contents,
`check_compliance` emits exactly one issue referring to the PRICE section:
the required-section pass's MISSING_CLAUSE, which is of HIGH severity (the
per-rule pass is suppressed because PRICE sits in its leniency set). -/
theorem c9_labor_price (secs : List PSection) (meta : ContractMetadata)
    (hnoprice : ∀ s ∈ secs, s.section_type ≠ SectionType.price)
    (hamount : meta.total_amount = none)
    (hkw : ∀ kw ∈ sectionFallbackKws SectionType.price,
      containsSub kw (allTextOf secs) = false) :
    (checkCompliance secs meta "labor").filter isPriceMissingIssue =
      [mkMissingSection SectionType.price] ∧
    (mkMissingSection SectionType.price).issue_type =
      IssueType.missing_clause ∧
    (mkMissingSection SectionType.price).severity = IssueSeverity.high := by
  have hany : (sectionFallbackKws SectionType.price).any
      (fun kw => containsSub kw (allTextOf secs)) = false := by
    rw [List.any_eq_false]
    intro kw hkwm
    simp [hkw kw hkwm]
  have hnot2 : SectionType.price ∉ reqFound2 secs "labor" := by
    intro hmem
    unfold reqFound2 at hmem
    rcases mem_foldl_addIf
        (fun acc st => !acc.contains st && !(sectionFallbackKws st).isEmpty &&
          (sectionFallbackKws st).any (fun kw => containsSub kw (allTextOf secs)))
        (fun st => (sectionFallbackKws st).any
          (fun kw => containsSub kw (allTextOf secs)))
        (fun acc x h => by simp only [Bool.and_eq_true] at h; exact h.2)
        (requiredSectionsFor "labor") (reqFound1 secs) SectionType.price hmem with
      h1 | h2
    · unfold reqFound1 at h1
      dsimp only at h1
      split at h1
      · rcases List.mem_append.mp h1 with h3 | h3
        · obtain ⟨s, hs, hty⟩ := List.mem_map.mp h3
          exact hnoprice s hs hty
        · have := List.mem_singleton.mp h3
          exact SectionType.noConfusion this
      · obtain ⟨s, hs, hty⟩ := List.mem_map.mp h1
        exact hnoprice s hs hty
    · rw [hany] at h2
      exact Bool.noConfusion h2
  have hcontains0 : (reqFound2 secs "labor").contains SectionType.price = false := by
    cases hcb : (reqFound2 secs "labor").contains SectionType.price with
    | false => rfl
    | true => exact absurd (by simpa using hcb) hnot2
  have hreq : reqIssueFor secs "labor" SectionType.price =
      some (mkMissingSection SectionType.price) := by
    unfold reqIssueFor
    simp [hcontains0, hany, hnot2]
  have hmemA : mkMissingSection SectionType.price ∈
      requiredSectionIssues secs "labor" := by
    unfold requiredSectionIssues
    exact List.mem_filterMap.mpr ⟨SectionType.price, by decide, hreq⟩
  have hfilterA : (requiredSectionIssues secs "labor").filter isPriceMissingIssue =
      [mkMissingSection SectionType.price] := by
    have hsub : ((requiredSectionIssues secs "labor").filter
        isPriceMissingIssue).Sublist
        (((requiredSectionsFor "labor").map mkMissingSection).filter
          isPriceMissingIssue) := by
      refine List.Sublist.filter _ ?_
      unfold requiredSectionIssues
      exact filterMap_shape_sublist _ _ (reqIssueFor_shape secs "labor") _
    rw [show ((requiredSectionsFor "labor").map mkMissingSection).filter
        isPriceMissingIssue = [mkMissingSection SectionType.price] from by decide]
      at hsub
    have hmemF : mkMissingSection SectionType.price ∈
        (requiredSectionIssues secs "labor").filter isPriceMissingIssue :=
      List.mem_filter.mpr ⟨hmemA, by decide⟩
    rcases List.sublist_singleton.mp hsub with h | h
    · rw [h] at hmemF
      exact absurd hmemF (List.not_mem_nil _)
    · exact h
  have hB : (((applicableRules "labor").flatMap
      fun r => checkRule r secs meta)).filter isPriceMissingIssue = [] := by
    rw [List.filter_eq_nil_iff]
    intro i hi hp
    obtain ⟨r, hr, hir⟩ := List.mem_flatMap.mp hi
    obtain ⟨htitle, hmc⟩ := checkRule_shape r secs meta i hir
    have hrE : r ∈ engineRules := (List.mem_filter.mp hr).1
    unfold isPriceMissingIssue at hp
    simp only [Bool.and_eq_true, Bool.or_eq_true, beq_iff_eq] at hp
    obtain ⟨hty, hti⟩ := hp
    rw [htitle] at hti
    simp only [engineRules, List.mem_cons, List.not_mem_nil, or_false] at hrE
    rcases hrE with rfl | rfl | rfl | rfl | rfl | rfl | rfl | rfl | rfl | rfl |
      rfl | rfl | rfl | rfl | rfl | rfl
    all_goals first
      | (rcases hti with h | h <;> exact absurd h (by decide))
      | exact absurd (hmc hty SectionType.price rfl) (by decide)
  have hC : (checkBalance secs).filter isPriceMissingIssue = [] := by
    rw [List.filter_eq_nil_iff]
    intro i hi hp
    obtain ⟨s, hs, hi⟩ := List.mem_flatMap.mp hi
    obtain ⟨pr, hpr, heq⟩ := List.mem_filterMap.mp hi
    have hsh := balanceIssueFor_shape s pr i heq
    unfold isPriceMissingIssue at hp
    simp only [Bool.and_eq_true, beq_iff_eq] at hp
    rw [hsh] at hp
    exact absurd hp.1 (by decide)
  have hD : (checkMetadata meta "labor").filter isPriceMissingIssue = [] := by
    rw [List.filter_eq_nil_iff]
    intro i hi hp
    have hsh := checkMetadata_type meta "labor" i hi
    unfold isPriceMissingIssue at hp
    simp only [Bool.and_eq_true, beq_iff_eq] at hp
    rw [hsh] at hp
    exact absurd hp.1 (by decide)
  have hE : (detectRiskyClauses secs "labor").filter isPriceMissingIssue = [] := by
    rw [List.filter_eq_nil_iff]
    intro i hi hp
    have hsh := detectRisky_type secs "labor" i hi
    unfold isPriceMissingIssue at hp
    simp only [Bool.and_eq_true, beq_iff_eq] at hp
    rw [hsh] at hp
    exact absurd hp.1 (by decide)
  refine ⟨?_, rfl, rfl⟩
  unfold checkCompliance
  rw [List.filter_append, List.filter_append, List.filter_append,
    List.filter_append, hfilterA, hB, hC, hD, hE]
  rfl

/-- C9 witness: the empty "labor" contract yields exactly the one PRICE
MISSING_CLAUSE among PRICE-referring issues. -/
theorem c9_witness :
    (checkCompliance [] {} "labor").filter isPriceMissingIssue =
      [mkMissingSection SectionType.price] ∧
    (mkMissingSection SectionType.price).issue_type =
      IssueType.missing_clause ∧
    (mkMissingSection SectionType.price).severity = IssueSeverity.high :=
  c9_labor_price [] {} (fun s hs => absurd hs (List.not_mem_nil s)) rfl
    (by decide)

/-- The apostrophe canonicalization is pointwise idempotent. -/
theorem apoMap_idem (c : Char) : apoMap (apoMap c) = apoMap c := by
  by_cases h : (c = '`' || c = '’' || c = 'ʻ' || c = 'ʼ' || c = '‘') = true
  · have h1 : apoMap c = '\'' := by unfold apoMap; rw [if_pos h]
    rw [h1]
    decide
  · have h1 : apoMap c = c := by unfold apoMap; rw [if_neg h]
    rw [h1, h1]

/-- A map that fixes every member is the identity. -/
theorem map_fixed_id (f : Char → Char) : ∀ l : List Char,
    (∀ c ∈ l, f c = c) → l.map f = l := by
  intro l
  induction l with
  | nil => exact fun _ => rfl
  | cons c t ih =>
    intro h
    rw [List.map_cons, h c (List.mem_cons_self _ _),
      ih (fun d hd => h d (List.mem_cons.mpr (Or.inr hd)))]

/-- Characters of `cwAux`'s output come from the flushed space, the pending
run, or the remaining input. -/
theorem cwAux_chars : ∀ (l rev : List Char) (c : Char),
    c ∈ cwAux rev l → c = ' ' ∨ c ∈ rev ∨ c ∈ l := by
  intro l
  induction l with
  | nil =>
    intro rev c h
    have h2 : c ∈ flushHT rev := h
    unfold flushHT at h2
    split at h2
    · exact Or.inl (List.mem_singleton.mp h2)
    · exact Or.inr (Or.inl (List.mem_reverse.mp h2))
  | cons d t ih =>
    intro rev c h
    unfold cwAux at h
    split at h
    · rcases ih (d :: rev) c h with h1 | h1 | h1
      · exact Or.inl h1
      · rcases List.mem_cons.mp h1 with h2 | h2
        · exact Or.inr (Or.inr (by rw [h2]; exact List.mem_cons_self _ _))
        · exact Or.inr (Or.inl h2)
      · exact Or.inr (Or.inr (List.mem_cons.mpr (Or.inr h1)))
    · rcases List.mem_append.mp h with h1 | h1
      · unfold flushHT at h1
        split at h1
        · exact Or.inl (List.mem_singleton.mp h1)
        · exact Or.inr (Or.inl (List.mem_reverse.mp h1))
      · rcases List.mem_cons.mp h1 with h2 | h2
        · exact Or.inr (Or.inr (by rw [h2]; exact List.mem_cons_self _ _))
        · rcases ih [] c h2 with h3 | h3 | h3
          · exact Or.inl h3
          · exact absurd h3 (List.not_mem_nil c)
          · exact Or.inr (Or.inr (List.mem_cons.mpr (Or.inr h3)))

/-- Characters of `crlfJoinF`'s output are newlines or input characters. -/
theorem crlfJoinF_chars (fuel : Nat) : ∀ (l : List Char) (c : Char),
    c ∈ crlfJoinF fuel l → c = '\n' ∨ c ∈ l := by
  induction fuel with
  | zero => exact fun l c h => Or.inr h
  | succ n ih =>
    intro l c h
    cases l with
    | nil => exact absurd h (List.not_mem_nil c)
    | cons a rest =>
      unfold crlfJoinF at h
      split at h
      · rename_i rdead rest2
        split at h
        · rcases List.mem_cons.mp h with h1 | h1
          · exact Or.inl h1
          · rcases ih rest2 c h1 with h2 | h2
            · exact Or.inl h2
            · exact Or.inr (List.mem_cons.mpr (Or.inr
                (List.mem_cons.mpr (Or.inr h2))))
        · rcases List.mem_cons.mp h with h1 | h1
          · exact Or.inr (by rw [h1]; exact List.mem_cons_self _ _)
          · rcases ih _ c h1 with h2 | h2
            · exact Or.inl h2
            · exact Or.inr (List.mem_cons.mpr (Or.inr h2))
      · rcases List.mem_cons.mp h with h1 | h1
        · exact Or.inr (by rw [h1]; exact List.mem_cons_self _ _)
        · rcases ih _ c h1 with h2 | h2
          · exact Or.inl h2
          · exact Or.inr (List.mem_cons.mpr (Or.inr h2))

/-- Every character the middle normalization emits is a fixed point of the
apostrophe canonicalization. -/
theorem midNormalize_chars (t : List Char) (c : Char) (h : c ∈ midNormalize t) :
    apoMap c = c := by
  unfold midNormalize eolNormalize at h
  obtain ⟨d, hd, hcd⟩ := List.mem_map.mp h
  rcases crlfJoinF_chars _ _ d hd with h1 | h1
  · subst h1
    rw [← hcd]
    decide
  · rcases cwAux_chars _ [] d h1 with h2 | h2 | h2
    · subst h2
      rw [← hcd]
      decide
    · exact absurd h2 (List.not_mem_nil d)
    · obtain ⟨e, he, hde⟩ := List.mem_map.mp h2
      by_cases hd13 : d = '\x0d'
      · rw [← hcd, if_pos hd13]
        decide
      · rw [← hcd, if_neg hd13, ← hde]
        exact apoMap_idem e

/-- The flushed run is at most one character. -/
theorem flushHT_len (rev : List Char) : (flushHT rev).length ≤ 1 := by
  unfold flushHT
  split
  · simp
  · rename_i h
    simp only [List.length_reverse]
    omega

/-- `cwAux` never leaves two adjacent spaces/tabs. -/
theorem cwAux_noHT2 : ∀ (l rev : List Char),
    List.Chain' (fun a b => isHT a = false ∨ isHT b = false) (cwAux rev l) := by
  intro l
  induction l with
  | nil =>
    intro rev
    show List.Chain' (fun a b => isHT a = false ∨ isHT b = false) (flushHT rev)
    have hlen := flushHT_len rev
    rcases hfl : flushHT rev with _ | ⟨x, rest⟩
    · exact List.chain'_nil
    · rw [hfl] at hlen
      simp only [List.length_cons] at hlen
      have hre : rest = [] := List.length_eq_zero.mp (by omega)
      subst hre
      exact List.chain'_singleton x
  | cons c t ih =>
    intro rev
    unfold cwAux
    split
    · exact ih (c :: rev)
    · rename_i hc
      have hcf : isHT c = false := by revert hc; cases isHT c <;> simp
      have htail : List.Chain' (fun a b => isHT a = false ∨ isHT b = false)
          (c :: cwAux [] t) := by
        rw [List.chain'_cons']
        exact ⟨fun b _ => Or.inl hcf, ih []⟩
      have hlen := flushHT_len rev
      rcases hfl : flushHT rev with _ | ⟨x, rest⟩
      · rw [List.nil_append]
        exact htail
      · rw [hfl] at hlen
        simp only [List.length_cons] at hlen
        have hre : rest = [] := List.length_eq_zero.mp (by omega)
        subst hre
        rw [List.singleton_append, List.chain'_cons']
        refine ⟨fun b hb => ?_, htail⟩
        rw [List.head?_cons, Option.mem_def] at hb
        injection hb with hb
        subst hb
        exact Or.inr hcf

/-- `crlfJoinF` is the identity on carriage-return-free text. -/
theorem crlfJoinF_noR (fuel : Nat) : ∀ l : List Char,
    (∀ c ∈ l, c ≠ '\x0d') → crlfJoinF fuel l = l := by
  induction fuel with
  | zero => exact fun l _ => rfl
  | succ n ih =>
    intro l h
    cases l with
    | nil => rfl
    | cons a rest =>
      have ha : a ≠ '\x0d' := h a (List.mem_cons_self _ _)
      have hrest : ∀ c ∈ rest, c ≠ '\x0d' :=
        fun c hc => h c (List.mem_cons.mpr (Or.inr hc))
      unfold crlfJoinF
      split
      · rw [if_neg ha, ih _ hrest]
      · rw [ih _ hrest]

/-- The head of `crlfJoinF`'s output is the input's head or a newline. -/
theorem crlfJoinF_head (fuel : Nat) : ∀ l : List Char,
    (crlfJoinF fuel l).head? = l.head? ∨ (crlfJoinF fuel l).head? = some '\n' := by
  induction fuel with
  | zero => exact fun l => Or.inl rfl
  | succ n _ =>
    intro l
    cases l with
    | nil => exact Or.inl rfl
    | cons a rest =>
      unfold crlfJoinF
      split
      · split
        · exact Or.inr rfl
        · exact Or.inl rfl
      · exact Or.inl rfl

/-- `crlfJoinF` preserves the no-adjacent-space/tab shape. -/
theorem crlfJoinF_chain (fuel : Nat) : ∀ l : List Char,
    List.Chain' (fun a b => isHT a = false ∨ isHT b = false) l →
    List.Chain' (fun a b => isHT a = false ∨ isHT b = false)
      (crlfJoinF fuel l) := by
  induction fuel with
  | zero => exact fun l h => h
  | succ n ih =>
    intro l h
    cases l with
    | nil => exact List.chain'_nil
    | cons a rest =>
      unfold crlfJoinF
      split
      · rename_i rdead rest2
        split
        · rw [List.chain'_cons']
          refine ⟨fun b _ => Or.inl (by decide), ?_⟩
          exact ih rest2 (List.chain'_cons'.mp (List.chain'_cons'.mp h).2).2
        · rw [List.chain'_cons']
          refine ⟨?_, ih _ (List.chain'_cons'.mp h).2⟩
          intro b hb
          rcases crlfJoinF_head n ('\n' :: rest2) with hh | hh
          · rw [hh] at hb
            exact (List.chain'_cons'.mp h).1 b hb
          · rw [hh, Option.mem_def] at hb
            injection hb with hb
            subst hb
            exact Or.inr (by decide)
      · rw [List.chain'_cons']
        refine ⟨?_, ih _ (List.chain'_cons'.mp h).2⟩
        intro b hb
        rcases crlfJoinF_head n _ with hh | hh
        · rw [hh] at hb
          exact (List.chain'_cons'.mp h).1 b hb
        · rw [hh, Option.mem_def] at hb
          injection hb with hb
          subst hb
          exact Or.inr (by decide)

/-- `cwAux` from an empty pending run is the identity on text with no two
adjacent spaces/tabs. -/
theorem cwAux_nil_id : ∀ l : List Char,
    List.Chain' (fun a b => isHT a = false ∨ isHT b = false) l →
    cwAux [] l = l := by
  intro l
  induction l with
  | nil => exact fun _ => rfl
  | cons c t ih =>
    intro h
    unfold cwAux
    split
    · rename_i hc
      cases t with
      | nil => rfl
      | cons d t2 =>
        have hcd := (List.chain'_cons.mp h).1
        have hd : isHT d = false := by
          rcases hcd with h1 | h1
          · rw [hc] at h1
            exact Bool.noConfusion h1
          · exact h1
        have ht := ih (List.chain'_cons'.mp h).2
        have ht2 : cwAux [] t2 = t2 := by
          unfold cwAux at ht
          rw [if_neg (by simp [hd])] at ht
          rw [show flushHT [] = [] from rfl, List.nil_append] at ht
          simp only [List.cons.injEq] at ht
          exact ht.2
        show cwAux [c] (d :: t2) = c :: d :: t2
        unfold cwAux
        rw [if_neg (by simp [hd]), show flushHT [c] = [c] from rfl,
          List.singleton_append, ht2]
    · rw [show flushHT [] = [] from rfl, List.nil_append,
        ih (List.chain'_cons'.mp h).2]

/-- C3 (amended): the full normalizer is not idempotent (the heading
line-break insertion can fire again on its own output), but the middle
stages — apostrophe canonicalization, whitespace collapsing and
line-ending normalization — are: applying them twice equals applying them
once, for every input. -/
theorem c3_mid_idempotent (t : List Char) :
    midNormalize (midNormalize t) = midNormalize t := by
  have hmap : (midNormalize t).map apoMap = midNormalize t :=
    map_fixed_id _ _ (fun c hc => midNormalize_chars t c hc)
  have hchain : List.Chain' (fun a b => isHT a = false ∨ isHT b = false)
      (midNormalize t) := by
    have h0 : List.Chain' (fun a b => isHT a = false ∨ isHT b = false)
        (crlfJoin (collapseWS (List.map apoMap t))) := by
      unfold crlfJoin
      exact crlfJoinF_chain _ _ (cwAux_noHT2 _ [])
    unfold midNormalize eolNormalize
    rw [List.chain'_map]
    refine h0.imp ?_
    intro a b hab
    rcases hab with h1 | h1
    · refine Or.inl ?_
      by_cases ha : a = '\x0d'
      · rw [if_pos ha]
        decide
      · rw [if_neg ha]
        exact h1
    · refine Or.inr ?_
      by_cases hb : b = '\x0d'
      · rw [if_pos hb]
        decide
      · rw [if_neg hb]
        exact h1
  have hnoR : ∀ c ∈ midNormalize t, c ≠ '\x0d' := by
    intro c hc
    unfold midNormalize eolNormalize at hc
    obtain ⟨d, hd, hcd⟩ := List.mem_map.mp hc
    by_cases hdR : d = '\x0d'
    · rw [if_pos hdR] at hcd
      rw [← hcd]
      decide
    · rw [if_neg hdR] at hcd
      rw [← hcd]
      exact hdR
  calc midNormalize (midNormalize t)
      = eolNormalize (collapseWS ((midNormalize t).map apoMap)) := rfl
    _ = eolNormalize (collapseWS (midNormalize t)) := by rw [hmap]
    _ = eolNormalize (midNormalize t) := by
        rw [show collapseWS (midNormalize t) = midNormalize t from
          cwAux_nil_id _ hchain]
    _ = midNormalize t := by
        unfold eolNormalize crlfJoin
        rw [crlfJoinF_noR _ _ hnoR]
        exact map_fixed_id _ _ (fun c hc => by rw [if_neg (hnoR c hc)])

/-- A character read succeeds only inside the text. -/
theorem charAt_some_lt {s : List Char} {i : Nat} {c : Char}
    (h : charAt s i = some c) : i < s.length := by
  by_contra hge
  push_neg at hge
  rw [charAt, List.drop_eq_nil_of_le hge] at h
  exact Option.noConfusion h

/-- A run never runs past the front of the remaining text. -/
theorem runLenFrom_le (p : Char → Bool) : ∀ l : List Char,
    runLenFrom p l ≤ l.length := by
  intro l
  induction l with
  | nil => exact Nat.le_refl 0
  | cons c t ih =>
    unfold runLenFrom
    split
    · simpa using ih
    · simp

/-- A run from position `i` stays inside the text. -/
theorem runLen_add_le (p : Char → Bool) (s : List Char) (i : Nat)
    (h : i ≤ s.length) : i + runLen p s i ≤ s.length := by
  have h1 : runLenFrom p (s.drop i) ≤ (s.drop i).length := runLenFrom_le p _
  rw [List.length_drop] at h1
  unfold runLen
  omega

/-- Literal matching moves forward and stays inside the text. -/
theorem matchLits_bounds (eqc : Char → Char → Bool) (s : List Char) :
    ∀ (cs : List Char) (i j : Nat), i ≤ s.length →
      matchLits eqc s i cs = some j → i ≤ j ∧ j ≤ s.length := by
  intro cs
  induction cs with
  | nil =>
    intro i j hi h
    unfold matchLits at h
    injection h with h
    subst h
    exact ⟨Nat.le_refl i, hi⟩
  | cons c cs ih =>
    intro i j hi h
    unfold matchLits at h
    split at h
    · rename_i d heq
      split at h
      · have hlt := charAt_some_lt heq
        obtain ⟨h1, h2⟩ := ih (i + 1) j (by omega) h
        exact ⟨by omega, h2⟩
      · exact Option.noConfusion h
    · exact Option.noConfusion h

/-- Greedy-star unrolling moves forward and stays inside the text. -/
theorem starRuns_bounds (f : Nat → List (Nat × Span)) (len : Nat)
    (hf : ∀ j, j ≤ len → ∀ x ∈ f j, j ≤ x.1 ∧ x.1 ≤ len) :
    ∀ (fuel i : Nat), i ≤ len → ∀ y ∈ starRuns f fuel i,
      i ≤ y.1 ∧ y.1 ≤ len := by
  intro fuel
  induction fuel with
  | zero =>
    intro i hi y hy
    simp only [starRuns, List.mem_singleton] at hy
    subst hy
    exact ⟨Nat.le_refl i, hi⟩
  | succ n ih =>
    intro i hi y hy
    unfold starRuns at hy
    rcases List.mem_append.mp hy with h1 | h1
    · obtain ⟨x, hx, hy2⟩ := List.mem_flatMap.mp h1
      obtain ⟨z, hz, hyz⟩ := List.mem_map.mp hy2
      have hxf := List.mem_filter.mp hx
      obtain ⟨hx1, hx2⟩ := hf i hi x hxf.1
      obtain ⟨hz1, hz2⟩ := ih x.1 hx2 z hz
      rw [← hyz]
      exact ⟨by omega, hz2⟩
    · simp only [List.mem_singleton] at h1
      subst h1
      exact ⟨Nat.le_refl i, hi⟩

/-- Every match end the engine reports lies between the start position and
the end of the text. -/
theorem runs_bounds (eqc : Char → Char → Bool) (s : List Char) :
    ∀ (r : Rx) (i : Nat), i ≤ s.length → ∀ x ∈ runs eqc s r i,
      i ≤ x.1 ∧ x.1 ≤ s.length := by
  intro r
  induction r with
  | fail =>
    intro i hi x hx
    exact absurd hx (List.not_mem_nil x)
  | eps =>
    intro i hi x hx
    simp only [runs, List.mem_singleton] at hx
    subst hx
    exact ⟨Nat.le_refl i, hi⟩
  | str cs =>
    intro i hi x hx
    unfold runs at hx
    split at hx
    · rename_i j heq
      simp only [List.mem_singleton] at hx
      subst hx
      exact matchLits_bounds eqc s cs i j hi heq
    · exact absurd hx (List.not_mem_nil x)
  | cls p =>
    intro i hi x hx
    unfold runs at hx
    split at hx
    · rename_i c heq
      split at hx
      · simp only [List.mem_singleton] at hx
        subst hx
        have := charAt_some_lt heq
        exact ⟨by omega, by omega⟩
      · exact absurd hx (List.not_mem_nil x)
    · exact absurd hx (List.not_mem_nil x)
  | seq a b iha ihb =>
    intro i hi x hx
    unfold runs at hx
    obtain ⟨u, hu, hx2⟩ := List.mem_flatMap.mp hx
    obtain ⟨v, hv, hxv⟩ := List.mem_map.mp hx2
    obtain ⟨h1, h2⟩ := iha i hi u hu
    obtain ⟨h3, h4⟩ := ihb u.1 h2 v hv
    rw [← hxv]
    exact ⟨by omega, h4⟩
  | alt a b iha ihb =>
    intro i hi x hx
    unfold runs at hx
    rcases List.mem_append.mp hx with h | h
    · exact iha i hi x h
    · exact ihb i hi x h
  | opt a iha =>
    intro i hi x hx
    unfold runs at hx
    rcases List.mem_append.mp hx with h | h
    · exact iha i hi x h
    · simp only [List.mem_singleton] at h
      subst h
      exact ⟨Nat.le_refl i, hi⟩
  | starC p =>
    intro i hi x hx
    unfold runs at hx
    obtain ⟨d, hd, hdx⟩ := List.mem_map.mp hx
    have hk := runLen_add_le p s i hi
    rw [← hdx]
    exact ⟨by omega, by omega⟩
  | plusC p =>
    intro i hi x hx
    unfold runs at hx
    obtain ⟨d, hd, hdx⟩ := List.mem_map.mp hx
    have hk := runLen_add_le p s i hi
    rw [← hdx]
    exact ⟨by omega, by omega⟩
  | lazyStarC p =>
    intro i hi x hx
    unfold runs at hx
    obtain ⟨d, hd, hdx⟩ := List.mem_map.mp hx
    have hk := runLen_add_le p s i hi
    have hdr := List.mem_range.mp hd
    rw [← hdx]
    exact ⟨by omega, by omega⟩
  | lazyPlusC p =>
    intro i hi x hx
    unfold runs at hx
    obtain ⟨d, hd, hdx⟩ := List.mem_map.mp hx
    have hk := runLen_add_le p s i hi
    have hdr := List.mem_range.mp hd
    rw [← hdx]
    exact ⟨by omega, by omega⟩
  | repC p lo hi2 =>
    intro i hi x hx
    unfold runs at hx
    dsimp only at hx
    split at hx
    · exact absurd hx (List.not_mem_nil x)
    · obtain ⟨d, hd, hdx⟩ := List.mem_map.mp hx
      have hk := runLen_add_le p s i hi
      have hmin : min (runLen p s i) hi2 ≤ runLen p s i := Nat.min_le_left _ _
      rw [← hdx]
      exact ⟨by omega, by omega⟩
  | repAtLeastC p lo =>
    intro i hi x hx
    unfold runs at hx
    dsimp only at hx
    split at hx
    · exact absurd hx (List.not_mem_nil x)
    · obtain ⟨d, hd, hdx⟩ := List.mem_map.mp hx
      have hk := runLen_add_le p s i hi
      rw [← hdx]
      exact ⟨by omega, by omega⟩
  | star a iha =>
    intro i hi x hx
    unfold runs at hx
    exact starRuns_bounds (runs eqc s a) s.length
      (fun j hj z hz => iha j hj z hz) (s.length + 1) i hi x hx
  | bolOrNl =>
    intro i hi x hx
    unfold runs at hx
    rcases List.mem_append.mp hx with h | h
    · split at h
      · simp only [List.mem_singleton] at h
        subst h
        exact ⟨Nat.le_refl i, hi⟩
      · split at h
        · split at h
          · simp only [List.mem_singleton] at h
            subst h
            exact ⟨Nat.le_refl i, hi⟩
          · exact absurd h (List.not_mem_nil x)
        · exact absurd h (List.not_mem_nil x)
    · split at h
      · rename_i c heq
        split at h
        · simp only [List.mem_singleton] at h
          subst h
          have := charAt_some_lt heq
          exact ⟨by omega, by omega⟩
        · exact absurd h (List.not_mem_nil x)
      · exact absurd h (List.not_mem_nil x)
  | grp a iha =>
    intro i hi x hx
    unfold runs at hx
    obtain ⟨z, hz, hzx⟩ := List.mem_map.mp hx
    obtain ⟨h1, h2⟩ := iha i hi z hz
    rw [← hzx]
    exact ⟨h1, h2⟩

/-- A successful leftmost search reports a well-formed span. -/
theorem firstFrom_bounds (eqc : Char → Char → Bool) (s : List Char) (r : Rx) :
    ∀ (fuel p st en : Nat) (g : Span),
      firstFrom eqc s r fuel p = some (st, en, g) →
      st ≤ en ∧ en ≤ s.length := by
  intro fuel
  induction fuel with
  | zero =>
    intro p st en g h
    exact Option.noConfusion h
  | succ n ih =>
    intro p st en g h
    unfold firstFrom at h
    split at h
    · rename_i hp
      split at h
      · rename_i e g2 heq
        injection h with h
        have hx : (e, g2) ∈ runs eqc s r p :=
          List.mem_of_mem_head? (by rw [heq]; exact rfl)
        obtain ⟨h1, h2⟩ := runs_bounds eqc s r p hp (e, g2) hx
        have h4 : p = st := congrArg Prod.fst h
        have h5 : e = en := congrArg Prod.fst (congrArg Prod.snd h)
        subst h4
        rw [← h5]
        exact ⟨h1, h2⟩
      · exact ih (p + 1) st en g h
    · exact Option.noConfusion h

/-- Every reported finditer match is a well-formed span. -/
theorem finditGo_bounds (eqc : Char → Char → Bool) (s : List Char) (r : Rx) :
    ∀ (fuel p : Nat) (m : Nat × Nat × Span),
      m ∈ finditGo eqc s r fuel p → m.1 ≤ m.2.1 ∧ m.2.1 ≤ s.length := by
  intro fuel
  induction fuel with
  | zero =>
    intro p m h
    exact absurd h (List.not_mem_nil m)
  | succ n ih =>
    intro p m h
    unfold finditGo at h
    split at h
    · exact absurd h (List.not_mem_nil m)
    · rename_i st en g heq
      rcases List.mem_cons.mp h with h1 | h1
      · subst h1
        exact firstFrom_bounds eqc s r _ p st en g heq
      · exact ih _ m h1

/-- Every raw heading candidate is a well-formed non-HEADER span. -/
theorem rawPositions_bounds (t : List Char) (p : SPos)
    (hp : p ∈ rawPositions t) :
    p.start ≤ p.stop ∧ p.stop ≤ t.length ∧ p.ty ≠ SectionType.header := by
  unfold rawPositions at hp
  obtain ⟨pr, hpr, hp2⟩ := List.mem_flatMap.mp hp
  obtain ⟨pat, hpat, hp3⟩ := List.mem_flatMap.mp hp2
  obtain ⟨m, hm, hmp⟩ := List.mem_map.mp hp3
  have hb : m.1 ≤ m.2.1 ∧ m.2.1 ≤ t.length := by
    unfold cpFindAll findit at hm
    exact finditGo_bounds _ t pat.rx _ 0 m hm
  have hmapfst : sectionPatternTable.map Prod.fst =
      [SectionType.subject, SectionType.parties, SectionType.rights,
       SectionType.obligations, SectionType.price, SectionType.delivery,
       SectionType.quality, SectionType.warranty, SectionType.liability,
       SectionType.force_majeure, SectionType.dispute, SectionType.term,
       SectionType.termination, SectionType.confidential,
       SectionType.additional, SectionType.requisites,
       SectionType.signatures] := rfl
  have hty : pr.1 ∈ sectionPatternTable.map Prod.fst :=
    List.mem_map.mpr ⟨pr, hpr, rfl⟩
  rw [hmapfst] at hty
  rw [← hmp]
  refine ⟨hb.1, hb.2, ?_⟩
  intro hcontr
  rw [show (⟨m.1, m.2.1, pr.1, stripWS (sliceLC t m.1 m.2.1)⟩ : SPos).ty = pr.1
    from rfl] at hcontr
  rw [hcontr] at hty
  revert hty
  decide

/-- The same-start collision filter only rearranges candidates. -/
theorem collideGo_mem : ∀ (l acc : List SPos) (z : SPos),
    z ∈ collideGo acc l → z ∈ acc ∨ z ∈ l := by
  intro l
  induction l with
  | nil =>
    intro acc z h
    exact Or.inl h
  | cons x rest ih =>
    intro acc z h
    unfold collideGo at h
    split at h
    · rcases ih _ z h with h1 | h1
      · obtain ⟨y, hy, hyz⟩ := List.mem_map.mp h1
        split at hyz
        · rw [← hyz]
          exact Or.inr (List.mem_cons_self _ _)
        · rw [← hyz]
          exact Or.inl hy
      · exact Or.inr (List.mem_cons.mpr (Or.inr h1))
    · rcases ih _ z h with h1 | h1
      · rcases List.mem_append.mp h1 with h2 | h2
        · exact Or.inl h2
        · rw [List.mem_singleton.mp h2]
          exact Or.inr (List.mem_cons_self _ _)
      · exact Or.inr (List.mem_cons.mpr (Or.inr h1))

/-- Deduplication keeps a sublist. -/
theorem dedupGo_sublist : ∀ (l : List SPos) (seen : List (Nat × SectionType)),
    (dedupGo seen l).Sublist l := by
  intro l
  induction l with
  | nil =>
    intro seen
    exact List.Sublist.refl _
  | cons x rest ih =>
    intro seen
    unfold dedupGo
    split
    · exact (ih seen).cons x
    · exact (ih _).cons₂ x

/-- Every kept section position is a raw candidate. -/
theorem findPos_mem (t : List Char) (p : SPos)
    (hp : p ∈ findSectionPositions t) : p ∈ rawPositions t := by
  unfold findSectionPositions at hp
  have h1 := (dedupGo_sublist _ _).subset hp
  have h2 := (List.perm_insertionSort sposLe _).subset h1
  split at h2
  · exact h2
  · rcases collideGo_mem _ [] p h2 with h3 | h3
    · exact absurd h3 (List.not_mem_nil p)
    · exact h3

/-- The kept section positions are sorted by start offset. -/
theorem findPos_sorted (t : List Char) :
    List.Pairwise sposLe (findSectionPositions t) := by
  unfold findSectionPositions
  have h1 : List.Sorted sposLe (List.insertionSort sposLe
      (if (rawPositions t).isEmpty then rawPositions t
       else collideGo [] (rawPositions t))) :=
    List.sorted_insertionSort sposLe _
  exact h1.sublist (dedupGo_sublist _ _)

/-- The first built section starts at its heading's start; its end is the
next heading's start, or the end of the text. -/
theorem buildSecs_start_head (t : List Char) (q : SPos) (rest : List SPos) :
    ∃ sec tl, buildSecs t (q :: rest) = sec :: tl ∧
      sec.start_pos = q.start ∧
      sec.end_pos = (match rest with | [] => t.length | r :: _ => r.start) ∧
      sec.section_type = q.ty ∧ tl = buildSecs t rest := by
  cases rest with
  | nil => exact ⟨_, _, rfl, rfl, rfl, rfl, rfl⟩
  | cons r rest2 => exact ⟨_, _, rfl, rfl, rfl, rfl, rfl⟩

/-- Consecutive built sections touch: each ends where the next starts. -/
theorem buildSecs_chain (t : List Char) : ∀ ps : List SPos,
    List.Chain' (fun a b => a.end_pos ≤ b.start_pos) (buildSecs t ps) := by
  intro ps
  induction ps with
  | nil => exact List.chain'_nil
  | cons q rest ih =>
    obtain ⟨sec, tl, heq, hst, hen, hty, htl⟩ := buildSecs_start_head t q rest
    rw [heq, htl]
    rw [List.chain'_cons']
    refine ⟨?_, ih⟩
    intro b hb
    cases rest with
    | nil =>
      rw [show buildSecs t ([] : List SPos) = [] from rfl] at hb
      exact absurd hb (by simp)
    | cons r rest2 =>
      obtain ⟨sec2, tl2, heq2, hst2, _, _, _⟩ := buildSecs_start_head t r rest2
      rw [heq2, List.head?_cons, Option.mem_def] at hb
      injection hb with hb
      subst hb
      rw [hen, hst2]
/-- Built sections have well-ordered bounds. -/
theorem buildSecs_le (t : List Char) : ∀ ps : List SPos,
    List.Pairwise sposLe ps →
    (∀ p ∈ ps, p.start ≤ p.stop ∧ p.stop ≤ t.length) →
    ∀ s ∈ buildSecs t ps, s.start_pos ≤ s.end_pos := by
  intro ps
  induction ps with
  | nil =>
    intro _ _ s hs
    rw [show buildSecs t ([] : List SPos) = [] from rfl] at hs
    exact absurd hs (List.not_mem_nil s)
  | cons q rest ih =>
    intro hsort hbnd s hs
    obtain ⟨sec, tl, heq, hst, hen, hty, htl⟩ := buildSecs_start_head t q rest
    rw [heq] at hs
    rcases List.mem_cons.mp hs with h1 | h1
    · subst h1
      rw [hst, hen]
      cases rest with
      | nil =>
        have := hbnd q (List.mem_cons_self _ _)
        show q.start ≤ t.length
        omega
      | cons r rest2 =>
        show q.start ≤ r.start
        exact (List.pairwise_cons.mp hsort).1 r (List.mem_cons_self _ _)
    · rw [htl] at h1
      exact ih (List.pairwise_cons.mp hsort).2
        (fun p hp => hbnd p (List.mem_cons.mpr (Or.inr hp))) s h1

/-- Built sections take their types from the headings. -/
theorem buildSecs_types (t : List Char) : ∀ ps : List SPos,
    ∀ s ∈ buildSecs t ps, s.section_type ∈ ps.map SPos.ty := by
  intro ps
  induction ps with
  | nil =>
    intro s hs
    rw [show buildSecs t ([] : List SPos) = [] from rfl] at hs
    exact absurd hs (List.not_mem_nil s)
  | cons q rest ih =>
    intro s hs
    obtain ⟨sec, tl, heq, hst, hen, hty, htl⟩ := buildSecs_start_head t q rest
    rw [heq] at hs
    rcases List.mem_cons.mp hs with h1 | h1
    · subst h1
      rw [List.map_cons]
      exact List.mem_cons.mpr (Or.inl hty)
    · rw [htl] at h1
      rw [List.map_cons]
      exact List.mem_cons.mpr (Or.inr (ih s h1))

/-- C6: every parse result's sections are ordered and non-overlapping
(`start_pos ≤ end_pos` within a section and `end_pos ≤` the next section's
`start_pos`), sections after the first are never HEADER (so there is at
most one HEADER section), and a leading HEADER section starts at offset
0. -/
theorem c6_section_order (t : List Char) :
    List.Chain' (fun a b => a.end_pos ≤ b.start_pos) (parseSections t) ∧
    (∀ s ∈ parseSections t, s.start_pos ≤ s.end_pos) ∧
    (∀ s ∈ (parseSections t).tail, s.section_type ≠ SectionType.header) ∧
    (∀ s ∈ (parseSections t).head?, s.section_type = SectionType.header →
      s.start_pos = 0) := by
  have hps : parseSections t =
      extractSecs (pyNormalize t) (findSectionPositions (pyNormalize t)) := rfl
  have hsort := findPos_sorted (pyNormalize t)
  have hbnd : ∀ p ∈ findSectionPositions (pyNormalize t),
      p.start ≤ p.stop ∧ p.stop ≤ (pyNormalize t).length := fun p hp =>
    ⟨(rawPositions_bounds _ p (findPos_mem _ p hp)).1,
     (rawPositions_bounds _ p (findPos_mem _ p hp)).2.1⟩
  have hnothdr : ∀ p ∈ findSectionPositions (pyNormalize t),
      p.ty ≠ SectionType.header := fun p hp =>
    (rawPositions_bounds _ p (findPos_mem _ p hp)).2.2
  rw [hps]
  rcases hc : findSectionPositions (pyNormalize t) with _ | ⟨p, ps2⟩
  · rw [show extractSecs (pyNormalize t) [] = [] from rfl]
    exact ⟨List.chain'_nil, fun s hs => absurd hs (List.not_mem_nil s),
      fun s hs => absurd hs (List.not_mem_nil s),
      fun s hs => absurd hs (Option.not_mem_none s)⟩
  · rw [hc] at hsort hbnd hnothdr
    obtain ⟨sec, tl, heq, hst, hen, hty, htl⟩ :=
      buildSecs_start_head (pyNormalize t) p ps2
    rw [show extractSecs (pyNormalize t) (p :: ps2) =
      (if 0 < p.start ∧ stripWS ((pyNormalize t).take p.start) ≠ [] then
        [⟨SectionType.header, lc "Sarlavha", [],
          stripWS ((pyNormalize t).take p.start), 0, p.start⟩]
       else []) ++ buildSecs (pyNormalize t) (p :: ps2) from rfl]
    by_cases hhdr : 0 < p.start ∧ stripWS ((pyNormalize t).take p.start) ≠ []
    · rw [if_pos hhdr, List.singleton_append, heq]
      refine ⟨?_, ?_, ?_, ?_⟩
      · rw [List.chain'_cons]
        constructor
        · rw [hst]
        · rw [← heq]
          exact buildSecs_chain (pyNormalize t) (p :: ps2)
      · intro s hs
        rcases List.mem_cons.mp hs with h1 | h1
        · subst h1
          exact Nat.zero_le _
        · rw [← heq] at h1
          exact buildSecs_le (pyNormalize t) (p :: ps2) hsort hbnd s h1
      · intro s hs
        rw [List.tail_cons, ← heq] at hs
        have hmem := buildSecs_types (pyNormalize t) (p :: ps2) s hs
        intro hcontr
        rw [hcontr] at hmem
        obtain ⟨p2, hp2, hp2ty⟩ := List.mem_map.mp hmem
        exact hnothdr p2 hp2 hp2ty
      · intro s hs hshdr
        rw [List.head?_cons, Option.mem_def] at hs
        injection hs with hs
        subst hs
        rfl
    · rw [if_neg hhdr, List.nil_append, heq]
      refine ⟨?_, ?_, ?_, ?_⟩
      · rw [← heq]
        exact buildSecs_chain (pyNormalize t) (p :: ps2)
      · intro s hs
        rw [← heq] at hs
        exact buildSecs_le (pyNormalize t) (p :: ps2) hsort hbnd s hs
      · intro s hs
        rw [List.tail_cons, htl] at hs
        have hs2 : s ∈ buildSecs (pyNormalize t) (p :: ps2) := by
          rw [heq, htl]
          exact List.mem_cons.mpr (Or.inr hs)
        have hmem := buildSecs_types (pyNormalize t) (p :: ps2) s hs2
        intro hcontr
        rw [hcontr] at hmem
        obtain ⟨p2, hp2, hp2ty⟩ := List.mem_map.mp hmem
        exact hnothdr p2 hp2 hp2ty
      · intro s hs hshdr
        rw [List.head?_cons, Option.mem_def] at hs
        injection hs with hs
        subst hs
        rw [hty] at hshdr
        exact absurd hshdr (hnothdr p (List.mem_cons_self _ _))

/-- C6 witness: the invariant at a concrete two-heading document. -/
theorem c6_witness :
    List.Chain' (fun a b => a.end_pos ≤ b.start_pos)
      (parseSections orderedDoc) ∧
    (∀ s ∈ parseSections orderedDoc, s.start_pos ≤ s.end_pos) ∧
    (∀ s ∈ (parseSections orderedDoc).tail,
      s.section_type ≠ SectionType.header) ∧
    (∀ s ∈ (parseSections orderedDoc).head?,
      s.section_type = SectionType.header → s.start_pos = 0) :=
  c6_section_order orderedDoc

end LB
